import Mathlib

/-!
Shallow embedding of the `video-library` repository (files
`src/video-encoder.cpp` / `src/video-decoder.cpp` with their headers) and
proofs about the specified properties.

The FFmpeg container/codec capability is an external collaborator; it is
modelled at its interface boundary (result codes `0`, `AVERROR(EAGAIN)`,
`AVERROR_EOF`, other negatives) by small deterministic state machines, while
all control flow of the two classes themselves is translated line by line
from the C++ sources.
-/

/-- An `AVRational` time base: `num / den` seconds per tick. -/
structure TimeBase where
  num : Int
  den : Int
deriving DecidableEq

/-- `AV_TIME_BASE_Q = {1, AV_TIME_BASE}`: the fixed microsecond time base. -/
def AV_TIME_BASE_Q : TimeBase := ⟨1, 1000000⟩

/-- `av_rescale_rnd(a, b, c, AV_ROUND_NEAR_INF)`: `a * b / c` rounded to the
nearest integer with halfway cases away from zero, computed with integer
arithmetic only, exactly as FFmpeg does (`(a*b + c/2) / c` for `a ≥ 0`,
mirrored for negative `a`). -/
def avRescaleRnd (a b c : Int) : Int :=
  if a < 0 then -((-a * b + c / 2) / c) else (a * b + c / 2) / c

/-- `av_rescale_q(a, bq, cq) = av_rescale_rnd(a, bq.num * cq.den, cq.num * bq.den)`:
rescale the tick count `a` from time base `bq` into time base `cq`. -/
def avRescaleQ (a : Int) (bq cq : TimeBase) : Int :=
  avRescaleRnd a (bq.num * cq.den) (cq.num * bq.den)

/- Arithmetic facts about the rounded rescaling. -/

lemma avRescaleRnd_of_nonneg {a : Int} (b c : Int) (ha : 0 ≤ a) :
    avRescaleRnd a b c = (a * b + c / 2) / c := by
  simp [avRescaleRnd, not_lt.mpr ha]

/-- Rounded division `(n + c/2)/c` is within half of the exact quotient:
`2 * |result * c - n| ≤ c`. -/
lemma roundDiv_near (n c : Int) (hc : 0 < c) :
    2 * |(n + c / 2) / c * c - n| ≤ c := by
  have h2 : c = 2 * (c / 2) + c % 2 := (Int.ediv_add_emod c 2).symm
  have hm2 : 0 ≤ c % 2 ∧ c % 2 < 2 := ⟨Int.emod_nonneg c (by norm_num), Int.emod_lt_of_pos c (by norm_num)⟩
  have hdm : c * ((n + c / 2) / c) + (n + c / 2) % c = n + c / 2 := Int.ediv_add_emod _ _
  have hm : 0 ≤ (n + c / 2) % c ∧ (n + c / 2) % c < c :=
    ⟨Int.emod_nonneg _ (by omega), Int.emod_lt_of_pos _ hc⟩
  have hcomm : c * ((n + c / 2) / c) = (n + c / 2) / c * c := mul_comm _ _
  rcases abs_cases ((n + c / 2) / c * c - n) with ⟨heq, _⟩ | ⟨heq, _⟩ <;> rw [heq] <;> omega

/-- If the exact rescaled value is an integer, the rounded division returns it
exactly (no drift at all in the divisible case). -/
lemma roundDiv_exact (n c : Int) (hc : 0 < c) (hdvd : c ∣ n) :
    (n + c / 2) / c * c = n := by
  obtain ⟨q, rfl⟩ := hdvd
  have hlt : c / 2 < c := by omega
  have hnn : 0 ≤ c / 2 := Int.ediv_nonneg (by omega) (by norm_num)
  have hq : (c * q + c / 2) / c = c / 2 / c + q := by
    rw [mul_comm c q, add_comm, Int.add_mul_ediv_right _ _ (ne_of_gt hc)]
  rw [hq, Int.ediv_eq_zero_of_lt hnn hlt]
  ring

/-- Monotonicity of the rescaling in its first argument, over the nonnegative
range, for nonnegative `b` and positive `c`. -/
lemma avRescaleRnd_mono {a a' : Int} (b c : Int) (ha : 0 ≤ a) (haa : a ≤ a')
    (hb : 0 ≤ b) (hc : 0 < c) : avRescaleRnd a b c ≤ avRescaleRnd a' b c := by
  rw [avRescaleRnd_of_nonneg b c ha, avRescaleRnd_of_nonneg b c (le_trans ha haa)]
  apply Int.ediv_le_ediv hc
  nlinarith

/-- Strict monotonicity step: when one source tick lasts at least one
destination tick (`b ≥ c`), rescaling `a + 1` gives a strictly larger result
than rescaling `a`. -/
lemma avRescaleRnd_strict {a : Int} (b c : Int) (ha : 0 ≤ a) (hc : 0 < c)
    (hbc : c ≤ b) : avRescaleRnd a b c < avRescaleRnd (a + 1) b c := by
  rw [avRescaleRnd_of_nonneg b c ha, avRescaleRnd_of_nonneg b c (by omega)]
  have h1 : (a + 1) * b + c / 2 = (a * b + c / 2) + b := by ring
  have h2 : (a * b + c / 2 + c) / c = (a * b + c / 2) / c + 1 := by
    have := Int.add_mul_ediv_right (a * b + c / 2) 1 (by omega : c ≠ 0)
    simpa using this
  have h3 : (a * b + c / 2 + c) / c ≤ ((a + 1) * b + c / 2) / c := by
    apply Int.ediv_le_ediv hc
    omega
  omega

/-! ## Encoder side: model of the libavcodec/libavformat collaborator -/

/-- Pixel formats appearing in the sources (`AV_PIX_FMT_RGB24`,
`AV_PIX_FMT_YUV420P`). -/
inductive PixFmt where
  | rgb24
  | yuv420p
deriving DecidableEq

/-- Result codes of `avcodec_send_frame` / `avcodec_receive_packet` as the
program distinguishes them: success (`0`), `AVERROR(EAGAIN)`, `AVERROR_EOF`,
and any other negative value. -/
inductive AVResult where
  | okRes
  | eagain
  | eofRes
  | errRes
deriving DecidableEq

/-- State of the external encoder capability.  `ready` counts encoded packets
retrievable right now, `held` counts frames buffered inside the encoder
(codec latency, bounded by `delay`), `draining` is set once a `NULL` frame was
submitted.  The interface contract follows the FFmpeg documentation: a send
after draining began reports `AVERROR_EOF`; a send while output is pending
reports `AVERROR(EAGAIN)`; receiving with no packet ready reports
`AVERROR(EAGAIN)` normally and `AVERROR_EOF` once draining is complete. -/
structure EncCodec where
  draining : Bool
  ready : Nat
  held : Nat
  delay : Nat
deriving DecidableEq

/-- `avcodec_send_frame(m_codec_context, frame)`; `flush = true` stands for a
`NULL` frame. -/
def sendFrameEnc (flush : Bool) (c : EncCodec) : AVResult × EncCodec :=
  if c.draining then (.eofRes, c)
  else if flush then (.okRes, { c with draining := true, ready := c.ready + c.held, held := 0 })
  else if 0 < c.ready then (.eagain, c)
  else
    let h := c.held + 1
    if c.delay < h then (.okRes, { c with held := c.delay, ready := c.ready + (h - c.delay) })
    else (.okRes, { c with held := h })

/-- `avcodec_receive_packet(m_codec_context, m_packet)`. -/
def receivePacketEnc (c : EncCodec) : AVResult × EncCodec :=
  if 0 < c.ready then (.okRes, { c with ready := c.ready - 1 })
  else if c.draining then (.eofRes, c)
  else (.eagain, c)

/-- Configuration of an `SwsContext` as created by `sws_getContext`. -/
structure SwsDesc where
  srcW : Nat
  srcH : Nat
  srcFmt : PixFmt
  dstW : Nat
  dstH : Nat
  dstFmt : PixFmt
deriving DecidableEq

/-- State of a `VideoEncoder` object after successful construction, together
with the observable history of its effects on the output container.
`frameW`/`frameH` are `m_frame->width/height` (the fixed output geometry set in
the constructor), `swsContext` is `m_sws_context` together with the
configuration it was created for, `mPts` is `m_pts`, `finalized` is
`m_finalized`.  `packetsWritten` counts `av_interleaved_write_frame` calls,
`trailersWritten` counts `av_write_trailer` calls, `conversions` records each
`sws_scale` call as (context configuration used, input width, input height),
and `assignedPts` records each `frame->pts` value assigned in the private
`encodeFrame(AVFrame*)`, in call order. -/
structure EncSt where
  codec : EncCodec
  frameW : Nat
  frameH : Nat
  pixFmt : PixFmt
  codecTb : TimeBase
  streamTb : TimeBase
  swsContext : Option SwsDesc
  finalized : Bool
  freed : Bool
  mPts : Nat
  framePts : Int
  packetsWritten : Nat
  trailersWritten : Nat
  conversions : List (SwsDesc × Nat × Nat)
  assignedPts : List Int
deriving DecidableEq

/-- How a packet-drain loop of `VideoEncoder` ended: `noMore` for
`AVERROR(EAGAIN)`, `flushedOut` for `AVERROR_EOF`. -/
inductive DrainStop where
  | noMore
  | flushedOut
deriving DecidableEq

/-- The receive loops of the private `encodeFrame(AVFrame*)` (lines 218-235 and
250-267): call `avcodec_receive_packet` repeatedly; on success write the packet
with `av_interleaved_write_frame` and unref it; stop on `AVERROR(EAGAIN)` or
`AVERROR_EOF`; throw on any other negative result. -/
def drainPackets (s : EncSt) : Except String (EncSt × DrainStop) :=
  match h : receivePacketEnc s.codec with
  | (.okRes, c') =>
      drainPackets { s with codec := c', packetsWritten := s.packetsWritten + 1 }
  | (.eagain, c') => .ok ({ s with codec := c' }, .noMore)
  | (.eofRes, c') => .ok ({ s with codec := c' }, .flushedOut)
  | (.errRes, _) => .error "Error receiving packet from encoder"
termination_by s.codec.ready
decreasing_by
  simp only [receivePacketEnc] at h
  split at h
  · simp only [Prod.mk.injEq] at h
    rw [← h.2]
    simp
    omega
  · split at h <;> simp_all

/- Inversion lemmas for the collaborator interface. -/

lemma receivePacketEnc_ok {c c' : EncCodec} (h : receivePacketEnc c = (.okRes, c')) :
    0 < c.ready ∧ c' = { c with ready := c.ready - 1 } := by
  simp only [receivePacketEnc] at h
  split at h
  · simp_all
  · split at h <;> simp_all

lemma receivePacketEnc_eagain {c c' : EncCodec} (h : receivePacketEnc c = (.eagain, c')) :
    c.ready = 0 ∧ c.draining = false ∧ c' = c := by
  simp only [receivePacketEnc] at h
  split at h
  · simp_all
  · split at h <;> simp_all

lemma receivePacketEnc_eof {c c' : EncCodec} (h : receivePacketEnc c = (.eofRes, c')) :
    c.ready = 0 ∧ c.draining = true ∧ c' = c := by
  simp only [receivePacketEnc] at h
  split at h
  · simp_all
  · split at h <;> simp_all

lemma receivePacketEnc_no_err {c c' : EncCodec} (h : receivePacketEnc c = (.errRes, c')) :
    False := by
  simp only [receivePacketEnc] at h
  split at h
  · simp_all
  · split at h <;> simp_all

lemma sendFrameEnc_eagain {f : Bool} {c c' : EncCodec}
    (h : sendFrameEnc f c = (.eagain, c')) :
    c.draining = false ∧ 0 < c.ready ∧ c' = c := by
  simp only [sendFrameEnc] at h
  split at h
  · simp_all
  · split at h
    · simp_all
    · split at h <;> [simp_all; (split at h <;> simp_all)]

lemma sendFrameEnc_eof {f : Bool} {c c' : EncCodec}
    (h : sendFrameEnc f c = (.eofRes, c')) : c.draining = true ∧ c' = c := by
  simp only [sendFrameEnc] at h
  split at h
  · simp_all
  · split at h
    · simp_all
    · split at h <;> [simp_all; (split at h <;> simp_all)]

lemma sendFrameEnc_no_err {f : Bool} {c c' : EncCodec}
    (h : sendFrameEnc f c = (.errRes, c')) : False := by
  simp only [sendFrameEnc] at h
  split at h
  · simp_all
  · split at h
    · simp_all
    · split at h <;> [simp_all; (split at h <;> simp_all)]

lemma sendFrameEnc_ok {f : Bool} {c c' : EncCodec}
    (h : sendFrameEnc f c = (.okRes, c')) :
    c.draining = false ∧ c'.delay = c.delay ∧ (f = true → c'.draining = true)
      ∧ (f = false → c'.draining = false) := by
  simp only [sendFrameEnc] at h
  split at h
  · simp_all
  · split at h
    · simp only [Prod.mk.injEq] at h
      obtain ⟨-, rfl⟩ := h
      simp_all
    · split at h
      · simp_all
      · split at h <;> (simp only [Prod.mk.injEq] at h; obtain ⟨-, rfl⟩ := h; simp_all)

/- One-step unfolding lemmas for `drainPackets`. -/

lemma drainPackets_step_ok {s : EncSt} {c' : EncCodec}
    (h : receivePacketEnc s.codec = (.okRes, c')) :
    drainPackets s
      = drainPackets { s with codec := c', packetsWritten := s.packetsWritten + 1 } := by
  rw [drainPackets]
  split <;> simp_all

lemma drainPackets_step_eagain {s : EncSt} {c' : EncCodec}
    (h : receivePacketEnc s.codec = (.eagain, c')) :
    drainPackets s = .ok ({ s with codec := c' }, .noMore) := by
  rw [drainPackets]
  split <;> simp_all

lemma drainPackets_step_eof {s : EncSt} {c' : EncCodec}
    (h : receivePacketEnc s.codec = (.eofRes, c')) :
    drainPackets s = .ok ({ s with codec := c' }, .flushedOut) := by
  rw [drainPackets]
  split <;> simp_all

/-- `drainPackets` always succeeds in this collaborator model (the codec never
reports a hard error), drains `ready` to `0`, touches only `codec` and
`packetsWritten`, and preserves the draining flag, the held frames and the
codec delay. -/
lemma drainPackets_spec (s : EncSt) :
    ∃ c k st,
      drainPackets s = .ok ({ s with codec := c, packetsWritten := s.packetsWritten + k }, st)
      ∧ c.ready = 0 ∧ c.draining = s.codec.draining ∧ c.held = s.codec.held
      ∧ c.delay = s.codec.delay := by
  induction s using drainPackets.induct with
  | case1 s c' h ih =>
    obtain ⟨hr, rfl⟩ := receivePacketEnc_ok h
    obtain ⟨c, k, st, heq, h0, hdr, hh, hd⟩ := ih
    refine ⟨c, k + 1, st, ?_, h0, by simp_all, by simp_all, by simp_all⟩
    rw [drainPackets_step_ok h, heq]
    simp [EncSt.mk.injEq]
    omega
  | case2 s c' h =>
    obtain ⟨h0, hdr, rfl⟩ := receivePacketEnc_eagain h
    exact ⟨s.codec, 0, .noMore, by rw [drainPackets_step_eagain h]; simp, h0, rfl, rfl, rfl⟩
  | case3 s c' h =>
    obtain ⟨h0, hdr, rfl⟩ := receivePacketEnc_eof h
    exact ⟨s.codec, 0, .flushedOut, by rw [drainPackets_step_eof h]; simp, h0, rfl, rfl, rfl⟩
  | case4 s c' h => exact absurd h (fun hh => receivePacketEnc_no_err hh)

/-- The send loop of the private `encodeFrame(AVFrame*)` (lines 213-247):
`avcodec_send_frame`; on `AVERROR(EAGAIN)` drain available packets and retry
(on `AVERROR_EOF` during that drain, return); on `AVERROR_EOF` return;
on another negative result throw; on success fall through to the final
drain of all currently available packets (lines 250-267). -/
def sendFrameLoop (s : EncSt) : Except String EncSt :=
  match hs : sendFrameEnc false s.codec with
  | (.eagain, c') =>
      match hd : drainPackets { s with codec := c' } with
      | .error e => .error e
      | .ok (s', .flushedOut) => .ok s'
      | .ok (s', .noMore) => sendFrameLoop s'
  | (.eofRes, c') => .ok { s with codec := c' }
  | (.errRes, _) => .error "Error sending frame to encoder"
  | (.okRes, c') =>
      match drainPackets { s with codec := c' } with
      | .error e => .error e
      | .ok (s', _) => .ok s'
termination_by s.codec.ready
decreasing_by
  obtain ⟨hdf, hr, hc⟩ := sendFrameEnc_eagain hs
  subst hc
  obtain ⟨c, k, st, heq, h0, h1, h2, h3⟩ := drainPackets_spec { s with codec := s.codec }
  rw [heq] at hd
  simp only [Except.ok.injEq, Prod.mk.injEq] at hd
  rw [← hd.1]
  simpa [h0] using hr

/-- One-step unfolding of `sendFrameLoop` in the `EAGAIN`-then-retry case. -/
lemma sendFrameLoop_step_eagain_retry {s s' : EncSt} {c' : EncCodec}
    (hs : sendFrameEnc false s.codec = (.eagain, c'))
    (hd : drainPackets { s with codec := c' } = .ok (s', .noMore)) :
    sendFrameLoop s = sendFrameLoop s' := by
  rw [sendFrameLoop]
  split
  · rename_i c'' heq
    rw [hs] at heq
    simp only [Prod.mk.injEq, true_and] at heq
    subst heq
    split <;> simp_all
  all_goals (rename_i heq; rw [hs] at heq; simp at heq)

/-- One-step unfolding of `sendFrameLoop` when the inner drain hits
`AVERROR_EOF`. -/
lemma sendFrameLoop_step_eagain_flushed {s s' : EncSt} {c' : EncCodec}
    (hs : sendFrameEnc false s.codec = (.eagain, c'))
    (hd : drainPackets { s with codec := c' } = .ok (s', .flushedOut)) :
    sendFrameLoop s = .ok s' := by
  rw [sendFrameLoop]
  split
  · rename_i c'' heq
    rw [hs] at heq
    simp only [Prod.mk.injEq, true_and] at heq
    subst heq
    split <;> simp_all
  all_goals (rename_i heq; rw [hs] at heq; simp at heq)

/-- One-step unfolding of `sendFrameLoop` when the send reports
`AVERROR_EOF`. -/
lemma sendFrameLoop_step_eof {s : EncSt} {c' : EncCodec}
    (hs : sendFrameEnc false s.codec = (.eofRes, c')) :
    sendFrameLoop s = .ok { s with codec := c' } := by
  rw [sendFrameLoop]
  split <;> (rename_i heq; rw [hs] at heq; simp_all)

/-- One-step unfolding of `sendFrameLoop` when the send succeeds. -/
lemma sendFrameLoop_step_ok {s s' : EncSt} {c' : EncCodec} {st : DrainStop}
    (hs : sendFrameEnc false s.codec = (.okRes, c'))
    (hd : drainPackets { s with codec := c' } = .ok (s', st)) :
    sendFrameLoop s = .ok s' := by
  rw [sendFrameLoop]
  split
  case h_4 =>
    rename_i c'' heq
    rw [hs] at heq
    simp only [Prod.mk.injEq, true_and] at heq
    subst heq
    split <;> simp_all
  all_goals (rename_i heq; rw [hs] at heq; simp at heq)

/-- `sendFrameLoop` never throws in this collaborator model, touches only
`codec` and `packetsWritten`, and preserves the draining flag and the delay. -/
lemma sendFrameLoop_spec (s : EncSt) :
    ∃ c k, sendFrameLoop s = .ok { s with codec := c, packetsWritten := s.packetsWritten + k }
      ∧ c.draining = s.codec.draining ∧ c.delay = s.codec.delay := by
  induction s using sendFrameLoop.induct with
  | case1 x c' hs e hd =>
    obtain ⟨hdf, hr, hc⟩ := sendFrameEnc_eagain hs
    subst hc
    obtain ⟨c, k, st, heq, h0, h1, h2, h3⟩ := drainPackets_spec { x with codec := x.codec }
    rw [heq] at hd
    simp at hd
  | case2 x c' hs s' hd =>
    obtain ⟨hdf, hr, hc⟩ := sendFrameEnc_eagain hs
    subst hc
    obtain ⟨c, k, st, heq, h0, h1, h2, h3⟩ := drainPackets_spec { x with codec := x.codec }
    rw [heq] at hd
    simp only [Except.ok.injEq, Prod.mk.injEq] at hd
    obtain ⟨hL, hst⟩ := hd
    subst hL
    refine ⟨c, k, ?_, by simpa using h1, by simpa using h3⟩
    rw [sendFrameLoop_step_eagain_flushed hs (heq.trans (by rw [hst]))]
  | case3 x c' hs s' hd ih =>
    obtain ⟨hdf, hr, hc⟩ := sendFrameEnc_eagain hs
    subst hc
    obtain ⟨c, k, st, heq, h0, h1, h2, h3⟩ := drainPackets_spec { x with codec := x.codec }
    rw [heq] at hd
    simp only [Except.ok.injEq, Prod.mk.injEq] at hd
    obtain ⟨hL, hst⟩ := hd
    subst hL
    obtain ⟨c2, k2, heq2, hdr2, hdel2⟩ := ih
    simp only at hdr2 hdel2
    refine ⟨c2, k + k2, ?_, ?_, ?_⟩
    · rw [sendFrameLoop_step_eagain_retry hs (heq.trans (by rw [hst])), heq2]
      simp [EncSt.mk.injEq]
      try omega
    · rw [hdr2]
      simpa using h1
    · rw [hdel2]
      simpa using h3
  | case4 x c' hs =>
    obtain ⟨hdr, hc⟩ := sendFrameEnc_eof hs
    subst hc
    exact ⟨x.codec, 0, by rw [sendFrameLoop_step_eof hs]; simp, rfl, rfl⟩
  | case5 x c' hs => exact absurd hs (fun hh => sendFrameEnc_no_err hh)
  | case6 x c' hs e hd =>
    obtain ⟨c, k, st, heq, h0, h1, h2, h3⟩ := drainPackets_spec { x with codec := c' }
    rw [heq] at hd
    simp at hd
  | case7 x c' hs s' st0 hd =>
    obtain ⟨hdf, hdel, -, hdr⟩ := sendFrameEnc_ok hs
    obtain ⟨c, k, st, heq, h0, h1, h2, h3⟩ := drainPackets_spec { x with codec := c' }
    rw [heq] at hd
    simp only [Except.ok.injEq, Prod.mk.injEq] at hd
    obtain ⟨hL, hst⟩ := hd
    subst hL
    simp only at h1 h3
    refine ⟨c, k, ?_, ?_, ?_⟩
    · exact sendFrameLoop_step_ok hs (heq.trans (by rw [hst]))
    · rw [h1, hdr rfl, hdf]
    · rw [h3, hdel]

/-- After draining has begun, the send loop returns immediately: the first
`avcodec_send_frame` reports `AVERROR_EOF` and the function returns without
writing anything. -/
lemma sendFrameLoop_draining {s : EncSt} (h : s.codec.draining = true) :
    sendFrameLoop s = .ok s := by
  have hs : sendFrameEnc false s.codec = (.eofRes, s.codec) := by
    simp [sendFrameEnc, h]
  rw [sendFrameLoop_step_eof hs]

/-- The flush loop of `finalize()` (lines 182-189): receive packets until the
result is `AVERROR_EOF` or `AVERROR(EAGAIN)`; any other result is treated as a
packet and written (`finalize` checks only for those two codes). -/
def finalizeDrain (s : EncSt) : EncSt :=
  match h : receivePacketEnc s.codec with
  | (.eofRes, c') => { s with codec := c' }
  | (.eagain, c') => { s with codec := c' }
  | (.okRes, c') =>
      finalizeDrain { s with codec := c', packetsWritten := s.packetsWritten + 1 }
  | (.errRes, c') =>
      finalizeDrain { s with codec := c', packetsWritten := s.packetsWritten + 1 }
termination_by s.codec.ready
decreasing_by
  · obtain ⟨hr, hc⟩ := receivePacketEnc_ok h
    subst hc
    simpa using hr
  · exact absurd h (fun hh => receivePacketEnc_no_err hh)

lemma finalizeDrain_step_ok {s : EncSt} {c' : EncCodec}
    (h : receivePacketEnc s.codec = (.okRes, c')) :
    finalizeDrain s
      = finalizeDrain { s with codec := c', packetsWritten := s.packetsWritten + 1 } := by
  rw [finalizeDrain]
  split <;> simp_all

lemma finalizeDrain_step_eagain {s : EncSt} {c' : EncCodec}
    (h : receivePacketEnc s.codec = (.eagain, c')) :
    finalizeDrain s = { s with codec := c' } := by
  rw [finalizeDrain]
  split <;> simp_all

lemma finalizeDrain_step_eof {s : EncSt} {c' : EncCodec}
    (h : receivePacketEnc s.codec = (.eofRes, c')) :
    finalizeDrain s = { s with codec := c' } := by
  rw [finalizeDrain]
  split <;> simp_all

/-- `finalizeDrain` touches only `codec` and `packetsWritten`, empties `ready`
and preserves the draining flag, held frames and delay. -/
lemma finalizeDrain_spec (s : EncSt) :
    ∃ c k, finalizeDrain s = { s with codec := c, packetsWritten := s.packetsWritten + k }
      ∧ c.ready = 0 ∧ c.draining = s.codec.draining ∧ c.held = s.codec.held
      ∧ c.delay = s.codec.delay := by
  induction s using finalizeDrain.induct with
  | case1 x c' h =>
    obtain ⟨h0, hdr, hc⟩ := receivePacketEnc_eof h
    subst hc
    exact ⟨x.codec, 0, by rw [finalizeDrain_step_eof h]; simp, h0, rfl, rfl, rfl⟩
  | case2 x c' h =>
    obtain ⟨h0, hdr, hc⟩ := receivePacketEnc_eagain h
    subst hc
    exact ⟨x.codec, 0, by rw [finalizeDrain_step_eagain h]; simp, h0, rfl, rfl, rfl⟩
  | case3 x c' h ih =>
    obtain ⟨hr, hc⟩ := receivePacketEnc_ok h
    subst hc
    obtain ⟨c, k, heq, h0, h1, h2, h3⟩ := ih
    simp only at heq h1 h2 h3
    refine ⟨c, k + 1, ?_, h0, h1, h2, h3⟩
    rw [finalizeDrain_step_ok h, heq]
    simp [EncSt.mk.injEq]
    try omega
  | case4 x c' h => exact absurd h (fun hh => receivePacketEnc_no_err hh)

/-- `VideoEncoder::finalize()` (lines 177-196): when `m_finalized` is not yet
set, send a `NULL` frame to flush the encoder (result ignored), drain and write
all remaining packets, write the trailer with `av_write_trailer`, and set
`m_finalized`; otherwise do nothing. -/
def finalizeEnc (s : EncSt) : EncSt :=
  if s.finalized then s
  else
    let c := (sendFrameEnc true s.codec).2
    let s' := finalizeDrain { s with codec := c }
    { s' with trailersWritten := s'.trailersWritten + 1, finalized := true }

/-- `VideoEncoder::~VideoEncoder()` (lines 105-126): call `finalize()` first,
then free the scaling context, frame, packet, codec context and format context
(closing the output file). -/
def destructorEnc (s : EncSt) : EncSt :=
  let s' := finalizeEnc s
  { s' with swsContext := none, freed := true }

/-- The private `VideoEncoder::encodeFrame(AVFrame*)` (lines 205-268): assign
`frame->pts = av_rescale_q(m_pts++, m_codec_context->time_base,
m_stream->time_base)`, then run the send/drain protocol. -/
def submitFrame (s : EncSt) : Except String EncSt :=
  let pts := avRescaleQ (s.mPts : Int) s.codecTb s.streamTb
  sendFrameLoop { s with framePts := pts, mPts := s.mPts + 1,
                         assignedPts := s.assignedPts ++ [pts] }

/-- The public `VideoEncoder::encodeFrame(const uint8_t*, int, int)`
(lines 137-170): recreate the scaling context when there is none or when the
input geometry differs from `m_frame->width/height` (the output geometry!),
then convert with `sws_scale` into `m_frame` and call the private overload.
`sws_getContext` always succeeds in this model, so the `none` branch below
(the throw on a failed context creation) is unreachable. -/
def encodeFrame (s : EncSt) (w h : Nat) : Except String EncSt :=
  let s₁ :=
    if s.swsContext = none ∨ w ≠ s.frameW ∨ h ≠ s.frameH then
      { s with swsContext := some ⟨w, h, PixFmt.rgb24, s.frameW, s.frameH, s.pixFmt⟩ }
    else s
  match s₁.swsContext with
  | none => .error "Failed to create scaling context"
  | some ctx => submitFrame { s₁ with conversions := s₁.conversions ++ [(ctx, w, h)] }

/-- Run a sequence of public `encodeFrame` calls, one per (width, height)
input pair. -/
def runEncodes : List (Nat × Nat) → EncSt → Except String EncSt
  | [], s => .ok s
  | (w, h) :: rest, s => (encodeFrame s w h).bind (runEncodes rest)

/-- The operations a caller can perform on a live `VideoEncoder`. -/
inductive EncOp where
  | encode (w h : Nat)
  | finalizeCall
deriving DecidableEq

/-- Run a sequence of public calls on the encoder. -/
def runEncOps : List EncOp → EncSt → Except String EncSt
  | [], s => .ok s
  | .encode w h :: rest, s => (encodeFrame s w h).bind (runEncOps rest)
  | .finalizeCall :: rest, s => runEncOps rest (finalizeEnc s)

/-- Effect of one private-submit call: the pts is assigned from `m_pts` (which
is incremented) before any interaction with the encoder, and apart from codec
state and written packets nothing else changes. -/
lemma submitFrame_spec (s : EncSt) :
    ∃ c k, submitFrame s = .ok { s with
        codec := c,
        packetsWritten := s.packetsWritten + k,
        framePts := avRescaleQ (s.mPts : Int) s.codecTb s.streamTb,
        mPts := s.mPts + 1,
        assignedPts := s.assignedPts ++ [avRescaleQ (s.mPts : Int) s.codecTb s.streamTb] }
      ∧ c.draining = s.codec.draining ∧ c.delay = s.codec.delay := by
  obtain ⟨c, k, heq, h1, h2⟩ := sendFrameLoop_spec
    { s with
        framePts := avRescaleQ (s.mPts : Int) s.codecTb s.streamTb,
        mPts := s.mPts + 1,
        assignedPts := s.assignedPts ++ [avRescaleQ (s.mPts : Int) s.codecTb s.streamTb] }
  exact ⟨c, k, heq, h1, h2⟩

/-- Effect of one public `encodeFrame` call: beyond `submitFrame_spec`, only
the scaling context and the conversion history change. -/
lemma encodeFrame_spec (s : EncSt) (w h : Nat) :
    ∃ c k sws convs, encodeFrame s w h = .ok { s with
        codec := c,
        packetsWritten := s.packetsWritten + k,
        swsContext := sws,
        conversions := convs,
        framePts := avRescaleQ (s.mPts : Int) s.codecTb s.streamTb,
        mPts := s.mPts + 1,
        assignedPts := s.assignedPts ++ [avRescaleQ (s.mPts : Int) s.codecTb s.streamTb] }
      ∧ c.draining = s.codec.draining ∧ c.delay = s.codec.delay := by
  by_cases hc : (s.swsContext = none ∨ w ≠ s.frameW ∨ h ≠ s.frameH)
  · have hred : encodeFrame s w h
        = submitFrame { s with
            swsContext := some ⟨w, h, PixFmt.rgb24, s.frameW, s.frameH, s.pixFmt⟩,
            conversions := s.conversions
              ++ [(⟨w, h, PixFmt.rgb24, s.frameW, s.frameH, s.pixFmt⟩, w, h)] } := by
      unfold encodeFrame
      rw [if_pos hc]
    obtain ⟨c, k, heq, h1, h2⟩ := submitFrame_spec
      { s with
          swsContext := some ⟨w, h, PixFmt.rgb24, s.frameW, s.frameH, s.pixFmt⟩,
          conversions := s.conversions
            ++ [(⟨w, h, PixFmt.rgb24, s.frameW, s.frameH, s.pixFmt⟩, w, h)] }
    exact ⟨c, k, _, _, hred.trans heq, h1, h2⟩
  · push_neg at hc
    obtain ⟨hne, hw, hh⟩ := hc
    obtain ⟨d, hd⟩ := Option.ne_none_iff_exists'.mp hne
    have hred : encodeFrame s w h
        = submitFrame { s with conversions := s.conversions ++ [(d, w, h)] } := by
      unfold encodeFrame
      rw [if_neg (by simp [hne, hw, hh])]
      simp [hd]
    obtain ⟨c, k, heq, h1, h2⟩ := submitFrame_spec
      { s with conversions := s.conversions ++ [(d, w, h)] }
    refine ⟨c, k, s.swsContext, s.conversions ++ [(d, w, h)],
      hred.trans (heq.trans ?_), h1, h2⟩
    congr 1

/-- A second `finalize()` call is a no-op: the `m_finalized` guard short
circuits the whole body. -/
lemma finalizeEnc_finalized {s : EncSt} (h : s.finalized = true) : finalizeEnc s = s := by
  simp [finalizeEnc, h]

/-- Sending the `NULL` frame always leaves the codec in draining state. -/
lemma sendFrameEnc_flush_draining (c : EncCodec) :
    ((sendFrameEnc true c).2).draining = true := by
  simp only [sendFrameEnc]
  split_ifs with h1 <;> simp_all

/-- Effect of the first `finalize()` call: exactly one trailer is written, the
finalized flag is set, the codec ends fully drained, and nothing else changes
apart from the written packets. -/
lemma finalizeEnc_spec {s : EncSt} (h : s.finalized = false) :
    ∃ c k, finalizeEnc s = { s with
        codec := c,
        packetsWritten := s.packetsWritten + k,
        trailersWritten := s.trailersWritten + 1,
        finalized := true }
      ∧ c.draining = true ∧ c.ready = 0 := by
  obtain ⟨c, k, heq, h0, h1, h2, h3⟩ :=
    finalizeDrain_spec { s with codec := (sendFrameEnc true s.codec).2 }
  simp only at heq h0 h1 h2 h3
  refine ⟨c, k, ?_, ?_, h0⟩
  · unfold finalizeEnc
    rw [if_neg (by simp [h])]
    simp [heq]
  · rw [h1, sendFrameEnc_flush_draining]

/-! ## The VideoEncoder constructor (lines 13-98) -/

/-- Outcome of every fallible step the constructor performs, i.e. the
behaviour of the FFmpeg collaborator during one construction attempt.
`noFile` is the `AVFMT_NOFILE` flag of the resolved output format. -/
structure EncCtorEnv where
  allocOutputCtxOk : Bool
  noFile : Bool
  avioOpenOk : Bool
  encoderFound : Bool
  newStreamOk : Bool
  allocCodecCtxOk : Bool
  codecOpenOk : Bool
  paramsCopyOk : Bool
  writeHeaderOk : Bool
  frameAllocOk : Bool
  frameBufferOk : Bool
  packetAllocOk : Bool
deriving DecidableEq

/-- Resources acquired by the `VideoEncoder` constructor, as observable state:
which handles are live and whether the output file is open / the header has
been written into it. -/
structure EncResources where
  formatCtx : Bool
  fileOpen : Bool
  streamCreated : Bool
  codecCtx : Bool
  frame : Bool
  packet : Bool
  headerWritten : Bool
deriving DecidableEq

/-- All-released resource state. -/
def encNoResources : EncResources :=
  ⟨false, false, false, false, false, false, false⟩

/-- `VideoEncoder::VideoEncoder` (video-encoder.cpp lines 13-98), translated
step by step.  Each `throw std::runtime_error(...)` is modelled as
`.error (message, r)` where `r` is the resource state at the moment the
exception leaves the constructor: the source performs no cleanup before any
of its throws (and a C++ destructor does not run for an object whose
constructor threw). -/
def videoEncoderCtor (env : EncCtorEnv) : Except (String × EncResources) EncResources :=
  let r0 := encNoResources
  if ¬env.allocOutputCtxOk then .error ("Could not allocate output format context", r0)
  else
    let r1 := { r0 with formatCtx := true }
    if ¬env.noFile ∧ ¬env.avioOpenOk then .error ("Could not open output file", r1)
    else
      let r2 := if env.noFile then r1 else { r1 with fileOpen := true }
      if ¬env.encoderFound then .error ("Could not find encoder", r2)
      else if ¬env.newStreamOk then .error ("Could not create new stream", r2)
      else
        let r3 := { r2 with streamCreated := true }
        if ¬env.allocCodecCtxOk then .error ("Could not allocate video codec context", r3)
        else
          let r4 := { r3 with codecCtx := true }
          if ¬env.codecOpenOk then .error ("Could not open codec", r4)
          else if ¬env.paramsCopyOk then
            .error ("Could not copy codec parameters to stream", r4)
          else if ¬env.writeHeaderOk then .error ("Could not write format header", r4)
          else
            let r5 := { r4 with headerWritten := true }
            if ¬env.frameAllocOk then .error ("Could not allocate video frame", r5)
            else
              let r6 := { r5 with frame := true }
              if ¬env.frameBufferOk then .error ("Could not allocate frame buffer", r6)
              else if ¬env.packetAllocOk then .error ("Could not allocate packet", r6)
              else .ok { r6 with packet := true }

/-- The constructor run in which everything succeeds up to `av_frame_alloc`,
which fails, on a file-backed output format. -/
def encCtorFrameAllocFails : EncCtorEnv :=
  ⟨true, false, true, true, true, true, true, true, true, false, true, true⟩

/-- C1: the claim states that on every failure branch of the `VideoEncoder`
constructor all previously acquired resources are released before the
exception propagates, and in particular no opened, partially written,
un-finalized output file is left open.  The code does the opposite: it has no
cleanup on any throw path.  Concretely, when `av_frame_alloc` fails after the
output file was opened and the header written, the constructor throws while
the format context, the opened output file, the stream and the codec context
are all still live and the header-but-no-trailer file is left open. -/
theorem C1_encoder_ctor_leaks_on_failure :
    videoEncoderCtor encCtorFrameAllocFails
      = .error ("Could not allocate video frame",
          { formatCtx := true, fileOpen := true, streamCreated := true, codecCtx := true,
            frame := false, packet := false, headerWritten := true })
    ∧ ∀ msg r, videoEncoderCtor encCtorFrameAllocFails = .error (msg, r) →
        (r.fileOpen = true ∧ r.headerWritten = true ∧ r ≠ encNoResources) := by
  constructor
  · rfl
  · intro msg r hmr
    refine ⟨?_, ?_, ?_⟩ <;> simp [videoEncoderCtor, encCtorFrameAllocFails, encNoResources] at hmr <;>
      simp [← hmr.2, encNoResources]

/-- State of a freshly constructed `VideoEncoder`: the constructor sets
`m_codec_context->time_base = {1000, lround(fps*1000)}` (here `fps1000` is
that rounded value), `m_sws_context = nullptr`, `m_finalized = false`,
`m_pts = 0`.  `m_stream->time_base` is assigned the codec time base before
`avformat_write_header`, but the muxer may replace it there, so the stream
time base is a parameter.  `delay` is the latency of the opened codec. -/
def encoderInit (w h fps1000 : Nat) (stb : TimeBase) (delay : Nat) : EncSt :=
  { codec := ⟨false, 0, 0, delay⟩
    frameW := w
    frameH := h
    pixFmt := .yuv420p
    codecTb := ⟨1000, (fps1000 : Int)⟩
    streamTb := stb
    swsContext := none
    finalized := false
    freed := false
    mPts := 0
    framePts := 0
    packetsWritten := 0
    trailersWritten := 0
    conversions := []
    assignedPts := [] }

/-- A conversion record uses a context configured for the geometry of the
input it converts. -/
def swsMatchesInput (e : SwsDesc × Nat × Nat) : Prop :=
  e.1.srcW = e.2.1 ∧ e.1.srcH = e.2.2

/-- C2: the claim states the conversion context is recreated exactly when none
exists or the input geometry differs from the previous call, and that the
context used by each conversion matches that conversion's source geometry.
The code instead compares the input against `m_frame->width/height` (the fixed
output geometry).  Encoding a 32x24 frame and then a 64x48 frame on a 64x48
encoder: the second call reuses the context built for 32x24 sources (no
recreation although the input geometry changed), so its conversion runs with a
context whose source geometry does not match the input. -/
theorem C2_sws_context_stale_on_output_sized_input :
    (runEncodes [(32, 24), (64, 48)] (encoderInit 64 48 25000 ⟨1000, 25000⟩ 0)).map
        EncSt.conversions
      = .ok [(⟨32, 24, .rgb24, 64, 48, .yuv420p⟩, 32, 24),
             (⟨32, 24, .rgb24, 64, 48, .yuv420p⟩, 64, 48)]
    ∧ ¬ swsMatchesInput (⟨32, 24, .rgb24, 64, 48, .yuv420p⟩, 64, 48) := by
  constructor
  · set_option maxRecDepth 8000 in
    simp [runEncodes, encodeFrame, submitFrame, sendFrameLoop, drainPackets,
      sendFrameEnc, receivePacketEnc, encoderInit, avRescaleQ, avRescaleRnd,
      Except.map, Except.bind]
  · simp [swsMatchesInput]

/-- Running a list of public `encodeFrame` calls never throws in this model,
and appends, for the `n`-th submitted frame, exactly
`av_rescale_q(m_pts_at_that_call, m_codec_context->time_base,
m_stream->time_base)` to the sequence of assigned presentation timestamps,
with `m_pts` incremented once per call. -/
lemma runEncodes_assignedPts (l : List (Nat × Nat)) :
    ∀ s : EncSt, ∃ s', runEncodes l s = .ok s'
      ∧ s'.assignedPts = s.assignedPts
          ++ (List.range' s.mPts l.length).map
              (fun n => avRescaleQ (Int.ofNat n) s.codecTb s.streamTb)
      ∧ s'.mPts = s.mPts + l.length := by
  induction l with
  | nil =>
    intro s
    exact ⟨s, rfl, by simp, by simp⟩
  | cons p rest ih =>
    obtain ⟨w, h⟩ := p
    intro s
    obtain ⟨c, k, sws, convs, heq, -, -⟩ := encodeFrame_spec s w h
    obtain ⟨s', heq2, hpts, hm⟩ := ih { s with
      codec := c,
      packetsWritten := s.packetsWritten + k,
      swsContext := sws,
      conversions := convs,
      framePts := avRescaleQ (s.mPts : Int) s.codecTb s.streamTb,
      mPts := s.mPts + 1,
      assignedPts := s.assignedPts ++ [avRescaleQ (s.mPts : Int) s.codecTb s.streamTb] }
    refine ⟨s', ?_, ?_, ?_⟩
    · simp only [runEncodes]
      rw [heq]
      simpa [Except.bind] using heq2
    · rw [hpts]
      simp [List.range'_succ]
    · simp only at hm
      rw [hm]
      simp [List.length_cons]
      omega

/-- A chain property over a mapped range follows from the single-step
property of the mapped function. -/
lemma chain'_map_range {R : Int → Int → Prop} (g : Nat → Int) (k : Nat)
    (hstep : ∀ n, R (g n) (g (n + 1))) : List.Chain' R ((List.range k).map g) := by
  rw [List.chain'_map]
  cases k with
  | zero => simp
  | succ n =>
    rw [List.chain'_range_succ]
    intro m _
    exact hstep m

/-- C4 (amended): the pts assigned to the n-th submitted frame is exactly the
frame counter n rescaled from the encoder time base into the stream time base;
the assigned sequence is always non-decreasing, and it is strictly increasing
whenever one encoder tick lasts at least one stream tick
(`streamTb.num * codecTb.den ≤ codecTb.num * streamTb.den`), in particular when
the stream keeps the codec time base the constructor assigned to it.  For a
stream time base coarser than the codec time base the rescaled values can
repeat, so strictness does not hold for every container time-base
resolution. -/
theorem C4_pts_rescaled_and_monotone (s : EncSt) (l : List (Nat × Nat))
    (h0 : s.mPts = 0) (hnil : s.assignedPts = [])
    (hcn : 0 < s.codecTb.num) (hcd : 0 < s.codecTb.den)
    (hsn : 0 < s.streamTb.num) (hsd : 0 < s.streamTb.den) :
    ∃ s', runEncodes l s = .ok s'
      ∧ s'.assignedPts
          = (List.range l.length).map (fun n => avRescaleQ (Int.ofNat n) s.codecTb s.streamTb)
      ∧ List.Chain' (· ≤ ·) s'.assignedPts
      ∧ (s.streamTb.num * s.codecTb.den ≤ s.codecTb.num * s.streamTb.den →
          List.Chain' (· < ·) s'.assignedPts) := by
  obtain ⟨s', heq, hpts, hm⟩ := runEncodes_assignedPts l s
  rw [h0, hnil] at hpts
  rw [← List.range_eq_range'] at hpts
  simp only [List.nil_append] at hpts
  have hb : (0 : Int) < s.codecTb.num * s.streamTb.den := by positivity
  have hc : (0 : Int) < s.streamTb.num * s.codecTb.den := by positivity
  refine ⟨s', heq, hpts, ?_, ?_⟩
  · rw [hpts]
    apply chain'_map_range
    intro n
    simp only [avRescaleQ]
    apply avRescaleRnd_mono _ _ (Int.ofNat_nonneg n) (by simp [Int.ofNat_succ]) (le_of_lt hb) hc
  · intro hfine
    rw [hpts]
    apply chain'_map_range
    intro n
    simp only [avRescaleQ]
    have := avRescaleRnd_strict (a := Int.ofNat n) (s.codecTb.num * s.streamTb.den)
      (s.streamTb.num * s.codecTb.den) (Int.ofNat_nonneg n) hc hfine
    convert this using 2

/-- C4 witness: three frames on an encoder whose stream kept the codec time
base `1000/25000` get the strictly increasing timestamps 0, 1, 2. -/
theorem C4_pts_rescaled_and_monotone_witness :
    (encoderInit 64 48 25000 ⟨1000, 25000⟩ 0).mPts = 0
    ∧ (encoderInit 64 48 25000 ⟨1000, 25000⟩ 0).assignedPts = []
    ∧ (∃ s', runEncodes [(64, 48), (64, 48), (64, 48)]
            (encoderInit 64 48 25000 ⟨1000, 25000⟩ 0) = .ok s'
        ∧ s'.assignedPts = (List.range 3).map
            (fun n => avRescaleQ (Int.ofNat n)
              (encoderInit 64 48 25000 ⟨1000, 25000⟩ 0).codecTb
              (encoderInit 64 48 25000 ⟨1000, 25000⟩ 0).streamTb)
        ∧ List.Chain' (· ≤ ·) s'.assignedPts
        ∧ ((encoderInit 64 48 25000 ⟨1000, 25000⟩ 0).streamTb.num
              * (encoderInit 64 48 25000 ⟨1000, 25000⟩ 0).codecTb.den
            ≤ (encoderInit 64 48 25000 ⟨1000, 25000⟩ 0).codecTb.num
              * (encoderInit 64 48 25000 ⟨1000, 25000⟩ 0).streamTb.den →
            List.Chain' (· < ·) s'.assignedPts)) :=
  ⟨rfl, rfl,
    C4_pts_rescaled_and_monotone (encoderInit 64 48 25000 ⟨1000, 25000⟩ 0)
      [(64, 48), (64, 48), (64, 48)] rfl rfl (by decide) (by decide) (by decide) (by decide)⟩

/-- C4 counterexample: with the codec time base `1000/25000` set by the
constructor for 25 fps and a container stream time base of `1/12` (coarser
than one frame), the first two submitted frames are both assigned pts 0: the
assigned sequence is not strictly increasing, so no duplicate-free guarantee
holds for every container time-base resolution. -/
theorem C4_counterexample_duplicate_pts :
    (runEncodes [(64, 48), (64, 48)] (encoderInit 64 48 25000 ⟨1, 12⟩ 0)).map
        EncSt.assignedPts = .ok [0, 0]
    ∧ ¬ List.Chain' (· < ·) [(0 : Int), 0] := by
  constructor
  · set_option maxRecDepth 8000 in
    simp [runEncodes, encodeFrame, submitFrame, sendFrameLoop, drainPackets,
      sendFrameEnc, receivePacketEnc, encoderInit, avRescaleQ, avRescaleRnd,
      Except.map, Except.bind]
  · simp [List.chain'_cons]

/-- `finalize()` always leaves the finalized flag set. -/
lemma finalizeEnc_flag (s : EncSt) : (finalizeEnc s).finalized = true := by
  by_cases h : s.finalized = true
  · rw [finalizeEnc_finalized h]
    exact h
  · obtain ⟨c, k, heq, -, -⟩ := finalizeEnc_spec (by simpa using h)
    rw [heq]

/-- Trailer invariant carried across any sequence of public calls: a finalized
encoder has written at most one trailer, and an unfinalized one has written
none. -/
def TrailerInv (s : EncSt) : Prop :=
  (s.finalized = true → s.trailersWritten ≤ 1)
    ∧ (s.finalized = false → s.trailersWritten = 0)

lemma encodeFrame_trailerInv {s s' : EncSt} {w h : Nat}
    (hinv : TrailerInv s) (heq : encodeFrame s w h = .ok s') : TrailerInv s' := by
  obtain ⟨c, k, sws, convs, heq2, -, -⟩ := encodeFrame_spec s w h
  rw [heq2] at heq
  simp only [Except.ok.injEq] at heq
  rw [← heq]
  exact hinv

lemma finalizeEnc_trailerInv {s : EncSt} (hinv : TrailerInv s) :
    TrailerInv (finalizeEnc s) := by
  by_cases h : s.finalized = true
  · rw [finalizeEnc_finalized h]
    exact hinv
  · have h' : s.finalized = false := by simpa using h
    obtain ⟨c, k, heq, -, -⟩ := finalizeEnc_spec h'
    rw [heq]
    constructor
    · intro
      simp [hinv.2 h']
    · intro hcon
      simp at hcon
lemma runEncOps_trailerInv :
    ∀ (ops : List EncOp) (s s' : EncSt), TrailerInv s →
      runEncOps ops s = .ok s' → TrailerInv s' := by
  intro ops
  induction ops with
  | nil =>
    intro s s' hinv heq
    simp only [runEncOps, Except.ok.injEq] at heq
    rw [← heq]
    exact hinv
  | cons op rest ih =>
    intro s s' hinv heq
    match op with
    | .encode w h =>
      simp only [runEncOps] at heq
      obtain ⟨c, k, sws, convs, heq2, -, -⟩ := encodeFrame_spec s w h
      rw [heq2] at heq
      simp only [Except.bind] at heq
      exact ih _ _ (encodeFrame_trailerInv hinv heq2) heq
    | .finalizeCall =>
      simp only [runEncOps] at heq
      exact ih _ _ (finalizeEnc_trailerInv hinv) heq

/-- C5: `finalize()` is idempotent (twice, and any number of times at least
once, equals once); over every sequence of public calls starting from a fresh
encoder at most one trailer is ever written; destroying an encoder after
`finalize()` writes no additional trailer; and destroying an encoder that was
never finalized finalizes it (writing the single trailer) before teardown. -/
theorem C5_finalize_idempotent_single_trailer :
    (∀ s : EncSt, finalizeEnc (finalizeEnc s) = finalizeEnc s)
    ∧ (∀ (n : Nat) (s : EncSt), finalizeEnc^[n + 1] s = finalizeEnc s)
    ∧ (∀ (ops : List EncOp) (s s' : EncSt), s.trailersWritten = 0 → s.finalized = false →
        runEncOps ops s = .ok s' → s'.trailersWritten ≤ 1)
    ∧ (∀ s : EncSt, (destructorEnc (finalizeEnc s)).trailersWritten
        = (finalizeEnc s).trailersWritten)
    ∧ (∀ s : EncSt, s.finalized = false →
        (destructorEnc s).finalized = true
          ∧ (destructorEnc s).trailersWritten = s.trailersWritten + 1) := by
  have hidem : ∀ s : EncSt, finalizeEnc (finalizeEnc s) = finalizeEnc s :=
    fun s => finalizeEnc_finalized (finalizeEnc_flag s)
  refine ⟨hidem, ?_, ?_, ?_, ?_⟩
  · intro n
    induction n with
    | zero => intro s; simp
    | succ m ih =>
      intro s
      rw [Function.iterate_succ_apply, ih (finalizeEnc s), hidem]
  · intro ops s s' h0 hf heq
    have hinv : TrailerInv s := ⟨fun hc => absurd hc (by simp [hf]), fun _ => h0⟩
    have hinv' := runEncOps_trailerInv ops s s' hinv heq
    by_cases hfin : s'.finalized = true
    · exact hinv'.1 hfin
    · rw [hinv'.2 (by simpa using hfin)]
      omega
  · intro s
    unfold destructorEnc
    rw [hidem s]
  · intro s hf
    obtain ⟨c, k, heq, -, -⟩ := finalizeEnc_spec hf
    unfold destructorEnc
    rw [heq]
    exact ⟨rfl, rfl⟩

/-- C5 witness: a fresh encoder, finalized twice through the public call
sequence, has written exactly at most one trailer. -/
theorem C5_finalize_idempotent_single_trailer_witness :
    (encoderInit 64 48 25000 ⟨1000, 25000⟩ 0).trailersWritten = 0
    ∧ (encoderInit 64 48 25000 ⟨1000, 25000⟩ 0).finalized = false
    ∧ ∀ s', runEncOps [.finalizeCall, .finalizeCall]
          (encoderInit 64 48 25000 ⟨1000, 25000⟩ 0) = .ok s' →
        s'.trailersWritten ≤ 1 :=
  ⟨rfl, rfl, fun s' heq =>
    C5_finalize_idempotent_single_trailer.2.2.1 [.finalizeCall, .finalizeCall]
      (encoderInit 64 48 25000 ⟨1000, 25000⟩ 0) s' rfl rfl heq⟩

/-- After draining began, the private submit still assigns a pts (incrementing
`m_pts`) and then returns on the encoder's `AVERROR_EOF` without writing
anything. -/
lemma submitFrame_draining {s : EncSt} (h : s.codec.draining = true) :
    submitFrame s = .ok { s with
      framePts := avRescaleQ (s.mPts : Int) s.codecTb s.streamTb,
      mPts := s.mPts + 1,
      assignedPts := s.assignedPts ++ [avRescaleQ (s.mPts : Int) s.codecTb s.streamTb] } := by
  unfold submitFrame
  exact sendFrameLoop_draining (by simpa using h)

/-- C10: calling `encodeFrame` after `finalize()` has completed is accepted
silently: no exception, no packet written, no trailer written — but `m_pts`
is still incremented and a pts is still assigned to the dropped frame. -/
theorem C10_encode_after_finalize_silent_noop (s : EncSt) (w h : Nat)
    (hf : s.finalized = false) :
    ∃ u, encodeFrame (finalizeEnc s) w h = .ok u
      ∧ u.packetsWritten = (finalizeEnc s).packetsWritten
      ∧ u.trailersWritten = (finalizeEnc s).trailersWritten
      ∧ u.finalized = true
      ∧ u.mPts = (finalizeEnc s).mPts + 1
      ∧ u.assignedPts = (finalizeEnc s).assignedPts
          ++ [avRescaleQ ((finalizeEnc s).mPts : Int)
                (finalizeEnc s).codecTb (finalizeEnc s).streamTb] := by
  obtain ⟨c, k, heq, hdr, -⟩ := finalizeEnc_spec hf
  have hdrt : (finalizeEnc s).codec.draining = true := by
    rw [heq]
    exact hdr
  set t := finalizeEnc s with ht
  by_cases hc : (t.swsContext = none ∨ w ≠ t.frameW ∨ h ≠ t.frameH)
  · have hred : encodeFrame t w h
        = submitFrame { t with
            swsContext := some ⟨w, h, PixFmt.rgb24, t.frameW, t.frameH, t.pixFmt⟩,
            conversions := t.conversions
              ++ [(⟨w, h, PixFmt.rgb24, t.frameW, t.frameH, t.pixFmt⟩, w, h)] } := by
      unfold encodeFrame
      rw [if_pos hc]
    rw [hred, submitFrame_draining (by simpa using hdrt)]
    refine ⟨_, rfl, rfl, rfl, ?_, rfl, rfl⟩
    have : t.finalized = true := by
      rw [ht]
      exact finalizeEnc_flag s
    simpa using this
  · push_neg at hc
    obtain ⟨hne, hw, hhh⟩ := hc
    obtain ⟨d, hd⟩ := Option.ne_none_iff_exists'.mp hne
    have hred : encodeFrame t w h
        = submitFrame { t with conversions := t.conversions ++ [(d, w, h)] } := by
      unfold encodeFrame
      rw [if_neg (by simp [hne, hw, hhh])]
      simp [hd]
    rw [hred, submitFrame_draining (by simpa using hdrt)]
    refine ⟨_, rfl, rfl, rfl, ?_, rfl, rfl⟩
    have : t.finalized = true := by
      rw [ht]
      exact finalizeEnc_flag s
    simpa using this

/-- C10 witness: on a fresh finalized encoder, one further `encodeFrame` call
succeeds, writes nothing, and still bumps `m_pts`. -/
theorem C10_encode_after_finalize_silent_noop_witness :
    (encoderInit 64 48 25000 ⟨1000, 25000⟩ 0).finalized = false
    ∧ ∃ u, encodeFrame (finalizeEnc (encoderInit 64 48 25000 ⟨1000, 25000⟩ 0)) 64 48 = .ok u
        ∧ u.packetsWritten = (finalizeEnc (encoderInit 64 48 25000 ⟨1000, 25000⟩ 0)).packetsWritten
        ∧ u.trailersWritten = (finalizeEnc (encoderInit 64 48 25000 ⟨1000, 25000⟩ 0)).trailersWritten
        ∧ u.finalized = true
        ∧ u.mPts = (finalizeEnc (encoderInit 64 48 25000 ⟨1000, 25000⟩ 0)).mPts + 1
        ∧ u.assignedPts = (finalizeEnc (encoderInit 64 48 25000 ⟨1000, 25000⟩ 0)).assignedPts
            ++ [avRescaleQ ((finalizeEnc (encoderInit 64 48 25000 ⟨1000, 25000⟩ 0)).mPts : Int)
                  (finalizeEnc (encoderInit 64 48 25000 ⟨1000, 25000⟩ 0)).codecTb
                  (finalizeEnc (encoderInit 64 48 25000 ⟨1000, 25000⟩ 0)).streamTb] :=
  ⟨rfl, C10_encode_after_finalize_silent_noop
    (encoderInit 64 48 25000 ⟨1000, 25000⟩ 0) 64 48 rfl⟩

/-! ## Decoder side: model of `VideoDecoder` -/

/-- One decoded picture: its `best_effort_timestamp` (stream time-base ticks)
and whether `sws_getContext` succeeds for its pixel format and dimensions in
`convertAVFrameToRGBBuffer`. -/
structure Frame where
  ts : Int
  convOk : Bool
deriving DecidableEq

/-- One event of `av_read_frame`: the demuxed packet with its stream index,
container pts and keyframe flag, whether the read succeeds at this position,
whether `avcodec_send_packet` accepts it, and the decoded pictures the codec
will produce from it. -/
structure Packet where
  streamIndex : Nat
  readOk : Bool
  sendOk : Bool
  keyframe : Bool
  pts : Int
  frames : List Frame
deriving DecidableEq

/-- State of a `VideoDecoder` plus the container it reads.  `allPackets` is the
whole (finite) packet stream of the container, `rest` its unread suffix,
`codecQueue` the decoded pictures the codec can still deliver, `draining`
whether the `NULL` flush packet has been sent.  `reads` counts successful
`av_read_frame` calls (an observable of container interaction).  The
`hasPendingFrames` flag is deliberately NOT part of this state: in the source
it is a function-local `static`, one per process, so it is passed around
separately. -/
structure DecSt where
  allPackets : List Packet
  rest : List Packet
  videoStreamIndex : Nat
  timeBase : TimeBase
  duration : Int
  seekable : Bool
  codecQueue : List Frame
  draining : Bool
  reads : Nat
deriving DecidableEq

/-- The decoded pictures contributed by the video-stream packets of `l`, in
order. -/
def videoFrames (v : Nat) (l : List Packet) : List Frame :=
  l.foldr (fun p acc => (if p.streamIndex = v then p.frames else []) ++ acc) []

/-- Termination measure for the decode loop. -/
def decMu (s : DecSt) : Nat :=
  s.rest.length + s.codecQueue.length + (videoFrames s.videoStreamIndex s.rest).length
    + (if s.draining then 0 else 1)

/-- The private `VideoDecoder::getNextFrame(AVFrame**)` (lines 170-228).  The
first argument is the process-wide `static bool hasPendingFrames`; the result
carries the possibly decoded frame, the new decoder state, and the new value
of the static flag.  When the flag is set the read step is skipped and the
call goes straight to `avcodec_receive_frame`; reading `AVERROR_EOF` sends the
`NULL` packet to start draining; a read error or send error returns false; a
packet of another stream is discarded without a send; `avcodec_receive_frame`
yields a picture (set the flag, return true), `AVERROR(EAGAIN)` (clear the
flag, loop back to the read step) or `AVERROR_EOF` (clear the flag, return
false). -/
def decodeGo (flag : Bool) (s : DecSt) : Option Frame × DecSt × Bool :=
  if flag then
    match s.codecQueue with
    | f :: tail => (some f, { s with codecQueue := tail }, true)
    | [] =>
      if s.draining then (none, s, false)
      else decodeGo false s
  else
    match hr : s.rest with
    | [] =>
      let s₁ := { s with draining := true }
      match s₁.codecQueue with
      | f :: tail => (some f, { s₁ with codecQueue := tail }, true)
      | [] =>
        if s₁.draining then (none, s₁, false)
        else decodeGo false s₁
    | p :: tail =>
      if p.readOk = false then (none, s, false)
      else
        let s₁ := { s with rest := tail, reads := s.reads + 1 }
        if p.streamIndex = s.videoStreamIndex then
          if p.sendOk = false then (none, s₁, false)
          else
            let s₂ := { s₁ with codecQueue := s₁.codecQueue ++ p.frames }
            match hq : s₂.codecQueue with
            | f :: tail₂ => (some f, { s₂ with codecQueue := tail₂ }, true)
            | [] =>
              if s₂.draining then (none, s₂, false)
              else decodeGo false s₂
        else
          match hq : s₁.codecQueue with
          | f :: tail₁ => (some f, { s₁ with codecQueue := tail₁ }, true)
          | [] =>
            if s₁.draining then (none, s₁, false)
            else decodeGo false s₁
termination_by decMu s * 2 + (if flag then 1 else 0)
decreasing_by
  all_goals simp_all [decMu, videoFrames]
  all_goals omega

/-- `VideoDecoder::getBestEffortTimestampInMicroseconds` (lines 344-346):
`av_rescale_q(frame->best_effort_timestamp, stream->time_base,
{1, AV_TIME_BASE})`. -/
def getBestEffortTimestampInMicroseconds (f : Frame) (tb : TimeBase) : Int :=
  avRescaleQ f.ts tb AV_TIME_BASE_Q

/-- `VideoDecoder::getTotalDuration` (lines 123-129):
`av_rescale_q(stream->duration, stream->time_base, {1, AV_TIME_BASE})`. -/
def getTotalDuration (s : DecSt) : Int :=
  avRescaleQ s.duration s.timeBase AV_TIME_BASE_Q

/-- The public `VideoDecoder::getNextFrame(uint8_t*, int64_t*)`
(lines 238-260): run the decode loop; on a frame, convert it to RGB — a
`sws_getContext` failure in `convertAVFrameToRGBBuffer` (lines 309-321) throws
`std::runtime_error`, which the `catch (const std::runtime_error &e)
{ throw e; }` block rethrows out of the call — then report the normalized
best-effort timestamp; without a frame return false. -/
def getNextFrameRGB (flag : Bool) (s : DecSt) :
    Except String (Option Int × DecSt × Bool) :=
  match decodeGo flag s with
  | (some f, s', flag') =>
      if f.convOk then
        .ok (some (getBestEffortTimestampInMicroseconds f s'.timeBase), s', flag')
      else .error "failed to create scaling context"
  | (none, s', flag') => .ok (none, s', flag')

/-- The pictures not yet delivered: what the codec still holds plus what the
unread video packets will produce. -/
def futureFrames (s : DecSt) : List Frame :=
  s.codecQueue ++ videoFrames s.videoStreamIndex s.rest

/- One-step unfolding lemmas for `decodeGo`, one per control path. -/

lemma decodeGo_pop {s : DecSt} {f : Frame} {tail : List Frame}
    (hq : s.codecQueue = f :: tail) :
    decodeGo true s = (some f, { s with codecQueue := tail }, true) := by
  rw [decodeGo]
  split <;> simp_all

lemma decodeGo_flag_eof {s : DecSt} (hq : s.codecQueue = []) (hdr : s.draining = true) :
    decodeGo true s = (none, s, false) := by
  rw [decodeGo]
  split <;> simp_all

lemma decodeGo_flag_again {s : DecSt} (hq : s.codecQueue = []) (hdr : s.draining = false) :
    decodeGo true s = decodeGo false s := by
  rw [decodeGo]
  split <;> simp_all

lemma decodeGo_eof_pop {s : DecSt} {f : Frame} {tail : List Frame}
    (hr : s.rest = []) (hq : s.codecQueue = f :: tail) :
    decodeGo false s = (some f, { s with draining := true, codecQueue := tail }, true) := by
  rw [decodeGo]
  simp only [Bool.false_eq_true, if_false]
  split <;> simp_all

lemma decodeGo_eof_end {s : DecSt} (hr : s.rest = []) (hq : s.codecQueue = []) :
    decodeGo false s = (none, { s with draining := true }, false) := by
  rw [decodeGo]
  simp only [Bool.false_eq_true, if_false]
  split <;> simp_all

lemma decodeGo_read_err {s : DecSt} {p : Packet} {tail : List Packet}
    (hr : s.rest = p :: tail) (hro : p.readOk = false) :
    decodeGo false s = (none, s, false) := by
  rw [decodeGo]
  simp only [Bool.false_eq_true, if_false]
  split <;> simp_all

lemma decodeGo_send_err {s : DecSt} {p : Packet} {tail : List Packet}
    (hr : s.rest = p :: tail) (hro : p.readOk = true)
    (hsi : p.streamIndex = s.videoStreamIndex) (hso : p.sendOk = false) :
    decodeGo false s = (none, { s with rest := tail, reads := s.reads + 1 }, false) := by
  rw [decodeGo]
  simp only [Bool.false_eq_true, if_false]
  split <;> simp_all

lemma decodeGo_video_pop {s : DecSt} {p : Packet} {tail : List Packet}
    {f : Frame} {tail₂ : List Frame}
    (hr : s.rest = p :: tail) (hro : p.readOk = true)
    (hsi : p.streamIndex = s.videoStreamIndex) (hso : p.sendOk = true)
    (hq : s.codecQueue ++ p.frames = f :: tail₂) :
    decodeGo false s
      = (some f, { s with rest := tail, reads := s.reads + 1, codecQueue := tail₂ }, true) := by
  rw [decodeGo]
  simp only [Bool.false_eq_true, if_false]
  split <;> simp_all
  split <;> simp_all

lemma decodeGo_video_eof {s : DecSt} {p : Packet} {tail : List Packet}
    (hr : s.rest = p :: tail) (hro : p.readOk = true)
    (hsi : p.streamIndex = s.videoStreamIndex) (hso : p.sendOk = true)
    (hq : s.codecQueue ++ p.frames = []) (hdr : s.draining = true) :
    decodeGo false s
      = (none, { s with
          rest := tail
          reads := s.reads + 1
          codecQueue := s.codecQueue ++ p.frames }, false) := by
  rw [decodeGo]
  simp only [Bool.false_eq_true, if_false]
  split <;> simp_all
  split <;> simp_all

lemma decodeGo_video_again {s : DecSt} {p : Packet} {tail : List Packet}
    (hr : s.rest = p :: tail) (hro : p.readOk = true)
    (hsi : p.streamIndex = s.videoStreamIndex) (hso : p.sendOk = true)
    (hq : s.codecQueue ++ p.frames = []) (hdr : s.draining = false) :
    decodeGo false s
      = decodeGo false { s with
          rest := tail
          reads := s.reads + 1
          codecQueue := s.codecQueue ++ p.frames } := by
  rw [decodeGo]
  simp only [Bool.false_eq_true, if_false]
  split <;> simp_all
  split <;> simp_all

lemma decodeGo_skip_pop {s : DecSt} {p : Packet} {tail : List Packet}
    {f : Frame} {tail₁ : List Frame}
    (hr : s.rest = p :: tail) (hro : p.readOk = true)
    (hsi : ¬ p.streamIndex = s.videoStreamIndex) (hq : s.codecQueue = f :: tail₁) :
    decodeGo false s
      = (some f, { s with rest := tail, reads := s.reads + 1, codecQueue := tail₁ }, true) := by
  rw [decodeGo]
  simp only [Bool.false_eq_true, if_false]
  split <;> simp_all
  split <;> simp_all

lemma decodeGo_skip_eof {s : DecSt} {p : Packet} {tail : List Packet}
    (hr : s.rest = p :: tail) (hro : p.readOk = true)
    (hsi : ¬ p.streamIndex = s.videoStreamIndex) (hq : s.codecQueue = [])
    (hdr : s.draining = true) :
    decodeGo false s = (none, { s with rest := tail, reads := s.reads + 1 }, false) := by
  rw [decodeGo]
  simp only [Bool.false_eq_true, if_false]
  split <;> simp_all
  split <;> simp_all

lemma decodeGo_skip_again {s : DecSt} {p : Packet} {tail : List Packet}
    (hr : s.rest = p :: tail) (hro : p.readOk = true)
    (hsi : ¬ p.streamIndex = s.videoStreamIndex) (hq : s.codecQueue = [])
    (hdr : s.draining = false) :
    decodeGo false s = decodeGo false { s with rest := tail, reads := s.reads + 1 } := by
  rw [decodeGo]
  simp only [Bool.false_eq_true, if_false]
  split <;> simp_all
  split <;> simp_all

lemma videoFrames_cons (v : Nat) (p : Packet) (l : List Packet) :
    videoFrames v (p :: l)
      = (if p.streamIndex = v then p.frames else []) ++ videoFrames v l := rfl

lemma videoFrames_nil (v : Nat) : videoFrames v [] = [] := rfl

/-- Every successful decode strictly shrinks the stock of future pictures
(strong induction on the decode-loop measure). -/
lemma decodeGo_some_future_lt :
    ∀ (n : Nat) (flag : Bool) (s : DecSt),
      decMu s * 2 + (if flag then 1 else 0) ≤ n →
      ∀ {f : Frame} {s' : DecSt} {flag' : Bool},
        decodeGo flag s = (some f, s', flag') →
        (futureFrames s').length < (futureFrames s).length := by
  intro n
  induction n with
  | zero =>
    intro flag s hn f s' flag' hgo
    have hflag : flag = false := by
      cases flag
      · rfl
      · rw [if_pos rfl] at hn
        exact absurd hn (by omega)
    subst hflag
    rw [if_neg (by simp)] at hn
    have hdr : s.draining = true := by
      by_contra hc
      simp [decMu, hc] at hn
    have hrest : s.rest = [] := by
      have : s.rest.length = 0 := by
        simp only [decMu] at hn
        omega
      simpa using this
    have hq : s.codecQueue = [] := by
      have : s.codecQueue.length = 0 := by
        simp only [decMu] at hn
        omega
      simpa using this
    rw [decodeGo_eof_end hrest hq] at hgo
    simp at hgo
  | succ m ih =>
    intro flag s hn f s' flag' hgo
    cases flag with
    | true =>
      match hq : s.codecQueue with
      | f0 :: tail =>
        rw [decodeGo_pop hq] at hgo
        simp only [Prod.mk.injEq, Option.some.injEq] at hgo
        obtain ⟨rfl, hs', -⟩ := hgo
        rw [← hs']
        simp [futureFrames, hq]
      | [] =>
        cases hdr : s.draining with
        | true =>
          rw [decodeGo_flag_eof hq hdr] at hgo
          simp at hgo
        | false =>
          rw [decodeGo_flag_again hq hdr] at hgo
          exact ih false s (by simp at hn ⊢; omega) hgo
    | false =>
      match hr : s.rest with
      | [] =>
        match hq : s.codecQueue with
        | f0 :: tail =>
          rw [decodeGo_eof_pop hr hq] at hgo
          simp only [Prod.mk.injEq, Option.some.injEq] at hgo
          obtain ⟨rfl, hs', -⟩ := hgo
          rw [← hs']
          simp [futureFrames, hq]
        | [] =>
          rw [decodeGo_eof_end hr hq] at hgo
          simp at hgo
      | p :: tail =>
        cases hro : p.readOk with
        | false =>
          rw [decodeGo_read_err hr hro] at hgo
          simp at hgo
        | true =>
          by_cases hsi : p.streamIndex = s.videoStreamIndex
          · cases hso : p.sendOk with
            | false =>
              rw [decodeGo_send_err hr hro hsi hso] at hgo
              simp at hgo
            | true =>
              match hq : s.codecQueue ++ p.frames with
              | f0 :: tail₂ =>
                rw [decodeGo_video_pop hr hro hsi hso hq] at hgo
                simp only [Prod.mk.injEq, Option.some.injEq] at hgo
                obtain ⟨rfl, hs', -⟩ := hgo
                rw [← hs']
                have hlen : s.codecQueue.length + p.frames.length = tail₂.length + 1 := by
                  have := congrArg List.length hq
                  simpa using this
                simp [futureFrames, hr, videoFrames_cons, hsi]
                omega
              | [] =>
                obtain ⟨hq1, hq2⟩ := List.append_eq_nil.mp hq
                cases hdr : s.draining with
                | true =>
                  rw [decodeGo_video_eof hr hro hsi hso hq hdr] at hgo
                  simp at hgo
                | false =>
                  rw [decodeGo_video_again hr hro hsi hso hq hdr] at hgo
                  have hmu : decMu { s with
                      rest := tail
                      reads := s.reads + 1
                      codecQueue := s.codecQueue ++ p.frames } + 1 = decMu s := by
                    simp [decMu, hq1, hq2, hr, videoFrames_cons, hsi, hdr]
                    omega
                  have hlt := ih false _ (by simp at hn ⊢; omega) hgo
                  have hfeq : futureFrames { s with
                      rest := tail
                      reads := s.reads + 1
                      codecQueue := s.codecQueue ++ p.frames } = futureFrames s := by
                    simp [futureFrames, hr, videoFrames_cons, hsi, hq1, hq2]
                  rw [hfeq] at hlt
                  exact hlt
          · match hq : s.codecQueue with
            | f0 :: tail₁ =>
              rw [decodeGo_skip_pop hr hro hsi hq] at hgo
              simp only [Prod.mk.injEq, Option.some.injEq] at hgo
              obtain ⟨rfl, hs', -⟩ := hgo
              rw [← hs']
              simp [futureFrames, hq, hr, videoFrames_cons, hsi]
            | [] =>
              cases hdr : s.draining with
              | true =>
                rw [decodeGo_skip_eof hr hro hsi hq hdr] at hgo
                simp at hgo
              | false =>
                rw [decodeGo_skip_again hr hro hsi hq hdr] at hgo
                have hmu : decMu { s with rest := tail, reads := s.reads + 1 } + 1 = decMu s := by
                  simp [decMu, hq, hr, videoFrames_cons, hsi, hdr]
                  omega
                have hlt := ih false _ (by simp at hn ⊢; omega) hgo
                have hfeq : futureFrames { s with rest := tail, reads := s.reads + 1 }
                    = futureFrames s := by
                  simp [futureFrames, hq, hr, videoFrames_cons, hsi]
                rw [hfeq] at hlt
                exact hlt

/-- The forward-scan loop of `VideoDecoder::seekToTimestamp` (lines 288-300):
decode frames until one has a normalized best-effort timestamp at or past the
target, threading the process-wide `hasPendingFrames` flag. -/
def scanLoop (flag : Bool) (s : DecSt) (t : Int) : Bool × DecSt × Bool :=
  match hgo : decodeGo flag s with
  | (some f, s', flag') =>
      if getBestEffortTimestampInMicroseconds f s'.timeBase ≥ t then (true, s', flag')
      else scanLoop flag' s' t
  | (none, s', flag') => (false, s', flag')
termination_by (futureFrames s).length
decreasing_by
  exact decodeGo_some_future_lt (decMu s * 2 + 2) _ _ (by split <;> omega) hgo

/-- The index the demuxer repositions to for a backward seek: the last
keyframe at or before the target (0 when there is none). -/
def seekIndex (l : List Packet) (t : Int) : Nat :=
  ((l.enum.filter (fun it => it.2.keyframe && decide (it.2.pts ≤ t))).map
    (fun it => it.1)).getLastD 0

/-- Modelled collaborator `av_seek_frame(..., AVSEEK_FLAG_BACKWARD)`:
reposition the demuxer at the last keyframe at or before the target tick
count; fail (negative return) when the input is not seekable. -/
def avSeekFrameBackward (s : DecSt) (targetTicks : Int) : Option (List Packet) :=
  if s.seekable then some (s.allPackets.drop (seekIndex s.allPackets targetTicks))
  else none

/-- `VideoDecoder::seekToTimestamp` (lines 269-301): rescale the microsecond
target into the stream time base with `av_rescale_q(t, AV_TIME_BASE_Q, tb)`,
flush the codec with `avcodec_flush_buffers` (which clears the buffered
pictures but NOT the function-local static `hasPendingFrames`), backward-seek
(returning false on failure), then scan forward.  The flag is threaded
unchanged into the scan. -/
def seekToTimestamp (flag : Bool) (s : DecSt) (tMicros : Int) : Bool × DecSt × Bool :=
  let targetTicks := avRescaleQ tMicros AV_TIME_BASE_Q s.timeBase
  let s₁ := { s with codecQueue := [], draining := false }
  match avSeekFrameBackward s₁ targetTicks with
  | none => (false, s₁, flag)
  | some newRest => scanLoop flag { s₁ with rest := newRest } tMicros

/-! ## The VideoDecoder constructor (video-decoder.cpp lines 23-91) -/

/-- `AVMediaType` as far as the constructor looks at it. -/
inductive MediaType where
  | video
  | audio
  | other
deriving DecidableEq

/-- Outcome of every fallible collaborator step during one construction
attempt, plus the media types of the container's streams. -/
structure DecCtorEnv where
  openOk : Bool
  findStreamInfoOk : Bool
  streams : List MediaType
  decoderFound : Bool
  allocCodecCtxOk : Bool
  paramsToCtxOk : Bool
  codecOpenOk : Bool
  packetAllocOk : Bool
  frameAllocOk : Bool
deriving DecidableEq

/-- Resources the decoder constructor can hold. -/
structure DecResources where
  formatCtx : Bool
  codecCtx : Bool
  packet : Bool
  frame : Bool
deriving DecidableEq

/-- All-released resource state. -/
def decNoResources : DecResources := ⟨false, false, false, false⟩

/-- The video-stream search loop (lines 38-43): iterate over all streams and
keep the index of the LAST one whose codec type is video, `-1` when none. -/
def findVideoStreamIndex (streams : List MediaType) : Int :=
  streams.enum.foldl
    (fun acc it => if it.2 = MediaType.video then (it.1 : Int) else acc) (-1)

/-- `VideoDecoder::VideoDecoder` (lines 23-91), translated step by step: every
failure branch releases exactly what the source releases before throwing
(`avformat_close_input`, `avcodec_free_context`, `av_packet_free` as
written there), and the error carries the message and the resource state at
the moment the exception propagates. -/
def videoDecoderCtor (env : DecCtorEnv) : Except (String × DecResources) DecResources :=
  if ¬env.openOk then .error ("could not open file", decNoResources)
  else
    let r1 : DecResources := { decNoResources with formatCtx := true }
    if ¬env.findStreamInfoOk then
      .error ("could not retrieve stream information", { r1 with formatCtx := false })
    else if findVideoStreamIndex env.streams = -1 then
      .error ("could not find a video stream", { r1 with formatCtx := false })
    else if ¬env.decoderFound then
      .error ("unsupported video codec", { r1 with formatCtx := false })
    else if ¬env.allocCodecCtxOk then
      .error ("could not allocate video codec context", { r1 with formatCtx := false })
    else
      let r2 := { r1 with codecCtx := true }
      if ¬env.paramsToCtxOk then
        .error ("could not copy video codec context",
          { r2 with codecCtx := false, formatCtx := false })
      else if ¬env.codecOpenOk then
        .error ("could not open video codec",
          { r2 with codecCtx := false, formatCtx := false })
      else if ¬env.packetAllocOk then
        .error ("could not allocate m_packet",
          { r2 with codecCtx := false, formatCtx := false })
      else
        let r3 := { r2 with packet := true }
        if ¬env.frameAllocOk then
          .error ("could not allocate m_frame",
            { r3 with codecCtx := false, formatCtx := false, packet := false })
        else .ok { r3 with frame := true }

/-- The error kinds §4.1 of the specification assigns to the constructor's
failure cases. -/
inductive DecErrKind where
  | openError
  | noVideoStreamError
  | unsupportedCodecError
  | initError
deriving DecidableEq

/-- Modelled from the spec: the kind §4.1 assigns to each thrown message —
open/metadata failures are `OpenError`, the missing-video-stream failure is
`NoVideoStreamError`, the missing-decoder failure is `UnsupportedCodecError`,
and codec-context/parameter/open/allocation failures are `InitError`. -/
def kindOfMessage (msg : String) : DecErrKind :=
  if msg = "could not open file" ∨ msg = "could not retrieve stream information" then
    .openError
  else if msg = "could not find a video stream" then .noVideoStreamError
  else if msg = "unsupported video codec" then .unsupportedCodecError
  else .initError

/-- Modelled from the spec: in which cases construction must fail, and with
which kind (`none` = construction must succeed). -/
def specExpectedError (env : DecCtorEnv) : Option DecErrKind :=
  if ¬env.openOk ∨ ¬env.findStreamInfoOk then some .openError
  else if ¬(MediaType.video ∈ env.streams) then some .noVideoStreamError
  else if ¬env.decoderFound then some .unsupportedCodecError
  else if ¬env.allocCodecCtxOk ∨ ¬env.paramsToCtxOk ∨ ¬env.codecOpenOk
      ∨ ¬env.packetAllocOk ∨ ¬env.frameAllocOk then some .initError
  else none

lemma findVideoStreamIndex_foldl (l : List MediaType) :
    ∀ (k : Nat) (acc : Int),
      ((List.enumFrom k l).foldl
          (fun acc it => if it.2 = MediaType.video then (it.1 : Int) else acc) acc = -1)
        ↔ (acc = -1 ∧ MediaType.video ∉ l) := by
  induction l with
  | nil => intro k acc; simp
  | cons t rest ih =>
    intro k acc
    rw [List.enumFrom_cons]
    simp only [List.foldl_cons]
    by_cases ht : t = MediaType.video
    · rw [if_pos ht]
      rw [ih (k + 1) (k : Int)]
      constructor
      · intro h
        exfalso
        omega
      · intro h
        exfalso
        exact h.2 (by simp [ht])
    · rw [if_neg ht]
      rw [ih (k + 1) acc]
      constructor
      · intro h
        exact ⟨h.1, by simp [List.mem_cons, h.2]; intro hc; exact ht hc.symm⟩
      · intro h
        exact ⟨h.1, fun hm => h.2 (List.mem_cons_of_mem t hm)⟩

/-- The search loop finds no index exactly when no stream is a video
stream. -/
lemma findVideoStreamIndex_eq_neg_one (streams : List MediaType) :
    findVideoStreamIndex streams = -1 ↔ MediaType.video ∉ streams := by
  unfold findVideoStreamIndex
  rw [List.enum]
  rw [findVideoStreamIndex_foldl streams 0 (-1)]
  simp

/- The spec kind of each message the constructor can throw, precomputed. -/

lemma kindMsg1 : kindOfMessage "could not open file" = .openError := by decide
lemma kindMsg2 : kindOfMessage "could not retrieve stream information" = .openError := by decide
lemma kindMsg3 : kindOfMessage "could not find a video stream" = .noVideoStreamError := by decide
lemma kindMsg4 : kindOfMessage "unsupported video codec" = .unsupportedCodecError := by decide
lemma kindMsg5 : kindOfMessage "could not allocate video codec context" = .initError := by decide
lemma kindMsg6 : kindOfMessage "could not copy video codec context" = .initError := by decide
lemma kindMsg7 : kindOfMessage "could not open video codec" = .initError := by decide
lemma kindMsg8 : kindOfMessage "could not allocate m_packet" = .initError := by decide
lemma kindMsg9 : kindOfMessage "could not allocate m_frame" = .initError := by decide

set_option maxHeartbeats 1600000 in
/-- C8: the decoder constructor fails with the §4.1 error kind in exactly the
specified cases, and on every failure branch every previously acquired
resource (format context, codec context, packet) has been released when the
exception propagates. -/
theorem C8_decoder_ctor_kinds_and_cleanup (env : DecCtorEnv) :
    (∀ msg r, videoDecoderCtor env = .error (msg, r) →
        r = decNoResources ∧ specExpectedError env = some (kindOfMessage msg))
    ∧ (∀ r, videoDecoderCtor env = .ok r → specExpectedError env = none) := by
  obtain ⟨o, fi, streams, df, ac, pc, co, pa, fa⟩ := env
  by_cases hmem : MediaType.video ∈ streams
  · have hidx : ¬(findVideoStreamIndex streams = -1) := by
      rw [findVideoStreamIndex_eq_neg_one]
      simpa using hmem
    cases o <;> cases fi <;> cases df <;> cases ac <;> cases pc <;> cases co <;>
      cases pa <;> cases fa <;>
      refine ⟨fun msg r hh => ?_, fun r hh => ?_⟩ <;>
      simp only [videoDecoderCtor, specExpectedError, decNoResources, hidx, hmem,
        Bool.not_eq_true, Bool.false_eq_true, Bool.true_eq_false, not_false_iff,
        not_true, if_true, if_false, ite_true, ite_false, not_false_eq_true,
        not_true_eq_false, List.not_mem_nil, Except.error.injEq, Except.ok.injEq,
        Prod.mk.injEq, reduceCtorEq, reduceIte, false_or, true_or, or_false,
        or_true, not_or, eq_self_iff_true] at hh ⊢ <;>
      first
        | (obtain ⟨rfl, rfl⟩ := hh
           simp [kindMsg1, kindMsg2, kindMsg3, kindMsg4, kindMsg5, kindMsg6,
             kindMsg7, kindMsg8, kindMsg9, decNoResources])
        | exact hh.elim
        | rfl
        | simp
  · have hidx : findVideoStreamIndex streams = -1 := by
      rw [findVideoStreamIndex_eq_neg_one]
      exact hmem
    cases o <;> cases fi <;> cases df <;> cases ac <;> cases pc <;> cases co <;>
      cases pa <;> cases fa <;>
      refine ⟨fun msg r hh => ?_, fun r hh => ?_⟩ <;>
      simp only [videoDecoderCtor, specExpectedError, decNoResources, hidx, hmem,
        Bool.not_eq_true, Bool.false_eq_true, Bool.true_eq_false, not_false_iff,
        not_true, if_true, if_false, ite_true, ite_false, not_false_eq_true,
        not_true_eq_false, List.not_mem_nil, Except.error.injEq, Except.ok.injEq,
        Prod.mk.injEq, reduceCtorEq, reduceIte, false_or, true_or, or_false,
        or_true, not_or, eq_self_iff_true] at hh ⊢ <;>
      first
        | (obtain ⟨rfl, rfl⟩ := hh
           simp [kindMsg1, kindMsg2, kindMsg3, kindMsg4, kindMsg5, kindMsg6,
             kindMsg7, kindMsg8, kindMsg9, decNoResources])
        | exact hh.elim
        | rfl
        | simp

/-- C8 witness: a container whose only stream is audio fails with the
no-video-stream kind and all resources released. -/
theorem C8_decoder_ctor_kinds_and_cleanup_witness :
    videoDecoderCtor ⟨true, true, [MediaType.audio], true, true, true, true, true, true⟩
        = .error ("could not find a video stream", decNoResources)
    ∧ (decNoResources = decNoResources
        ∧ specExpectedError ⟨true, true, [MediaType.audio], true, true, true, true, true, true⟩
            = some (kindOfMessage "could not find a video stream")) :=
  ⟨rfl,
    (C8_decoder_ctor_kinds_and_cleanup
        ⟨true, true, [MediaType.audio], true, true, true, true, true, true⟩).1
      "could not find a video stream" decNoResources rfl⟩

/-- A one-packet video stream whose single decoded picture has a pixel layout
`sws_getContext` rejects. -/
def decStC3 : DecSt :=
  { allPackets := [⟨0, true, true, true, 0, [⟨0, false⟩]⟩]
    rest := [⟨0, true, true, true, 0, [⟨0, false⟩]⟩]
    videoStreamIndex := 0
    timeBase := ⟨1, 25⟩
    duration := 25
    seekable := true
    codecQueue := []
    draining := false
    reads := 0 }

/-- C3: the claim states the public `getNextFrame(uint8_t*, int64_t*)` never
raises and reports only a boolean.  But when `convertAVFrameToRGBBuffer`
cannot create its scaling context it throws `std::runtime_error`, and the
`catch (const std::runtime_error &e) { throw e; }` block in `getNextFrame`
rethrows it, so the exception escapes the public call. -/
theorem C3_getNextFrame_rethrows_conversion_failure :
    getNextFrameRGB false decStC3 = .error "failed to create scaling context" := by
  simp [getNextFrameRGB, decStC3, decodeGo]

/-- Decoder A for the cross-instance scenario: a decoder that has reached end
of input. -/
def decStC9A : DecSt :=
  { allPackets := []
    rest := []
    videoStreamIndex := 0
    timeBase := ⟨1, 25⟩
    duration := 0
    seekable := true
    codecQueue := []
    draining := false
    reads := 0 }

/-- Decoder B for the cross-instance scenario: one packet yielding two
pictures, then one more packet. -/
def decStC9B : DecSt :=
  { allPackets := [⟨0, true, true, true, 0, [⟨0, true⟩, ⟨1, true⟩]⟩,
                   ⟨0, true, true, false, 2, [⟨2, true⟩]⟩]
    rest := [⟨0, true, true, true, 0, [⟨0, true⟩, ⟨1, true⟩]⟩,
             ⟨0, true, true, false, 2, [⟨2, true⟩]⟩]
    videoStreamIndex := 0
    timeBase := ⟨1, 25⟩
    duration := 100
    seekable := true
    codecQueue := []
    draining := false
    reads := 0 }

/-- A non-seekable input. -/
def decStC9NS : DecSt :=
  { allPackets := []
    rest := []
    videoStreamIndex := 0
    timeBase := ⟨1, 25⟩
    duration := 0
    seekable := false
    codecQueue := []
    draining := false
    reads := 0 }

/-- C9: `hasPendingFrames` is process-global, not per-instance, and
`seekToTimestamp` never resets it.  Decoder B decodes one picture from a
two-picture packet (leaving the flag set).  If decoder A then runs one
`getNextFrame` (hitting end of stream), it clears the shared flag; B's next
call then reads a new packet from ITS container (reads goes to 2) although
without A's interleaved call B's next call reads nothing (reads stays 1) —
the same B state behaves differently depending on the flag another instance
left, while both runs deliver the same picture.  And a failed seek leaves
whatever flag value was set by other activity untouched. -/
theorem C9_hasPendingFrames_shared_across_instances :
    (decodeGo false decStC9B).2.2 = true
    ∧ (decodeGo true decStC9A).2.2 = false
    ∧ (decodeGo false (decodeGo false decStC9B).2.1).2.1.reads = 2
    ∧ (decodeGo true (decodeGo false decStC9B).2.1).2.1.reads = 1
    ∧ (decodeGo false (decodeGo false decStC9B).2.1).1
        = (decodeGo true (decodeGo false decStC9B).2.1).1
    ∧ (seekToTimestamp true decStC9NS 5).2.2 = true
    ∧ (seekToTimestamp false decStC9NS 5).2.2 = false
    ∧ (seekToTimestamp true decStC9NS 5).1 = false := by
  refine ⟨?_, ?_, ?_, ?_, ?_, ?_, ?_, ?_⟩ <;>
    simp [decodeGo, decStC9A, decStC9B, decStC9NS, seekToTimestamp,
      avSeekFrameBackward, seekIndex, scanLoop, avRescaleQ, avRescaleRnd,
      AV_TIME_BASE_Q]

/-- C7: `getTotalDuration` computes `av_rescale_q(duration, tb, 1/1000000)`
with integer arithmetic only, and that value is exactly the rational
`duration * tb.num * 1000000 / tb.den` rounded to the nearest integer (within
half a denominator, and exact whenever the rational is an integer); frame
timestamps are normalized by the very same rescaling
(`getBestEffortTimestampInMicroseconds`). -/
theorem C7_duration_and_pts_exact_rational_rescale (s : DecSt) (f : Frame)
    (hn : 0 < s.timeBase.num) (hd : 0 < s.timeBase.den)
    (hdur : 0 ≤ s.duration) (hts : 0 ≤ f.ts) :
    (∀ c, getTotalDuration s = getBestEffortTimestampInMicroseconds ⟨s.duration, c⟩ s.timeBase)
    ∧ 2 * |getTotalDuration s * s.timeBase.den
          - s.duration * (s.timeBase.num * 1000000)| ≤ s.timeBase.den
    ∧ (s.timeBase.den ∣ s.duration * (s.timeBase.num * 1000000) →
        getTotalDuration s * s.timeBase.den = s.duration * (s.timeBase.num * 1000000))
    ∧ 2 * |getBestEffortTimestampInMicroseconds f s.timeBase * s.timeBase.den
          - f.ts * (s.timeBase.num * 1000000)| ≤ s.timeBase.den := by
  have hgen : ∀ x : Int, 0 ≤ x →
      avRescaleQ x s.timeBase AV_TIME_BASE_Q
        = (x * (s.timeBase.num * 1000000) + s.timeBase.den / 2) / s.timeBase.den := by
    intro x hx
    simp [avRescaleQ, AV_TIME_BASE_Q, avRescaleRnd_of_nonneg _ _ hx]
  refine ⟨fun c => rfl, ?_, ?_, ?_⟩
  · rw [getTotalDuration, hgen s.duration hdur]
    exact roundDiv_near _ _ hd
  · intro hdvd
    rw [getTotalDuration, hgen s.duration hdur]
    exact roundDiv_exact _ _ hd hdvd
  · rw [getBestEffortTimestampInMicroseconds, hgen f.ts hts]
    exact roundDiv_near _ _ hd

/-- C7 witness: the spec's non-trivial time base 1/90000 with a concrete
duration, evaluated exactly. -/
theorem C7_duration_and_pts_exact_rational_rescale_witness :
    (0 : Int) < 1 ∧ (0 : Int) < 90000 ∧ (0 : Int) ≤ 123456 ∧
    ((∀ c, getTotalDuration ⟨[], [], 0, ⟨1, 90000⟩, 123456, true, [], false, 0⟩
        = getBestEffortTimestampInMicroseconds ⟨123456, c⟩ ⟨1, 90000⟩)
      ∧ 2 * |getTotalDuration ⟨[], [], 0, ⟨1, 90000⟩, 123456, true, [], false, 0⟩ * 90000
            - 123456 * (1 * 1000000)| ≤ 90000
      ∧ (90000 ∣ 123456 * ((1 : Int) * 1000000) →
          getTotalDuration ⟨[], [], 0, ⟨1, 90000⟩, 123456, true, [], false, 0⟩ * 90000
            = 123456 * (1 * 1000000))
      ∧ 2 * |getBestEffortTimestampInMicroseconds ⟨123456, true⟩ ⟨1, 90000⟩ * 90000
            - 123456 * (1 * 1000000)| ≤ 90000) :=
  ⟨by decide, by decide, by decide,
    C7_duration_and_pts_exact_rational_rescale
      ⟨[], [], 0, ⟨1, 90000⟩, 123456, true, [], false, 0⟩ ⟨123456, true⟩
      (by decide) (by decide) (by decide) (by decide)⟩

/-! ## Seek correctness (C6) -/

/-- Every unread packet is readable and acceptable by the codec. -/
def GoodRest (s : DecSt) : Prop :=
  ∀ p ∈ s.rest, p.readOk = true ∧ p.sendOk = true

/-- Draining only ever starts once the container is exhausted. -/
def DrainOk (s : DecSt) : Prop := s.draining = true → s.rest = []

/-- The stream-level fields a decode step never changes. -/
def SameStream (s s' : DecSt) : Prop :=
  s'.timeBase = s.timeBase ∧ s'.allPackets = s.allPackets
    ∧ s'.videoStreamIndex = s.videoStreamIndex ∧ s'.duration = s.duration
    ∧ s'.seekable = s.seekable

lemma videoFrames_append (v : Nat) (l₁ l₂ : List Packet) :
    videoFrames v (l₁ ++ l₂) = videoFrames v l₁ ++ videoFrames v l₂ := by
  induction l₁ with
  | nil => simp [videoFrames_nil]
  | cons p rest ih => simp [videoFrames_cons, ih]

/-- The decode loop delivers exactly the head of the future-picture list (and
end of stream exactly when it is empty), on any state whose unread packets are
sound and whose draining flag is consistent. -/
lemma decodeGo_future_spec :
    ∀ (n : Nat) (flag : Bool) (s : DecSt),
      decMu s * 2 + (if flag then 1 else 0) ≤ n →
      GoodRest s → DrainOk s →
      ((futureFrames s = [] → ∃ s', decodeGo flag s = (none, s', false)
          ∧ SameStream s s' ∧ futureFrames s' = [] ∧ GoodRest s' ∧ DrainOk s')
      ∧ (∀ f rest, futureFrames s = f :: rest →
          ∃ s', decodeGo flag s = (some f, s', true)
            ∧ SameStream s s' ∧ futureFrames s' = rest ∧ GoodRest s' ∧ DrainOk s')) := by
  intro n
  induction n with
  | zero =>
    intro flag s hn hg hd
    have hflag : flag = false := by
      cases flag
      · rfl
      · rw [if_pos rfl] at hn
        exact absurd hn (by omega)
    subst hflag
    rw [if_neg (by simp)] at hn
    have hdr : s.draining = true := by
      by_contra hc
      simp [decMu, hc] at hn
    have hrest : s.rest = [] := hd hdr
    have hq : s.codecQueue = [] := by
      have : s.codecQueue.length = 0 := by
        simp only [decMu] at hn
        omega
      simpa using this
    constructor
    · intro hfut
      refine ⟨{ s with draining := true }, decodeGo_eof_end hrest hq, ?_, ?_, ?_, ?_⟩
      · exact ⟨rfl, rfl, rfl, rfl, rfl⟩
      · simp [futureFrames, hq, hrest, videoFrames_nil]
      · intro p hp
        rw [hrest] at hp
        simp at hp
      · intro
        simp [hrest]
    · intro f rest hfut
      exfalso
      rw [futureFrames, hq, hrest, videoFrames_nil] at hfut
      simp at hfut
  | succ m ih =>
    intro flag s hn hg hd
    cases flag with
    | true =>
      match hq : s.codecQueue with
      | f0 :: tail =>
        constructor
        · intro hfut
          exfalso
          rw [futureFrames, hq] at hfut
          simp at hfut
        · intro f rest hfut
          rw [futureFrames, hq] at hfut
          simp only [List.cons_append, List.cons.injEq] at hfut
          obtain ⟨rfl, hrest⟩ := hfut
          refine ⟨{ s with codecQueue := tail }, decodeGo_pop hq, ?_, ?_, hg, hd⟩
          · exact ⟨rfl, rfl, rfl, rfl, rfl⟩
          · rw [← hrest]
            simp [futureFrames]
      | [] =>
        cases hdr : s.draining with
        | true =>
          have hrest : s.rest = [] := hd hdr
          constructor
          · intro hfut
            refine ⟨s, decodeGo_flag_eof hq hdr, ?_, hfut, hg, hd⟩
            exact ⟨rfl, rfl, rfl, rfl, rfl⟩
          · intro f rest hfut
            exfalso
            rw [futureFrames, hq, hrest, videoFrames_nil] at hfut
            simp at hfut
        | false =>
          have hstep := decodeGo_flag_again hq hdr
          have hrec := ih false s (by simp at hn ⊢; omega) hg hd
          rw [hstep]
          exact hrec
    | false =>
      match hr : s.rest with
      | [] =>
        match hq : s.codecQueue with
        | f0 :: tail =>
          constructor
          · intro hfut
            exfalso
            rw [futureFrames, hq] at hfut
            simp at hfut
          · intro f rest hfut
            rw [futureFrames, hq, hr, videoFrames_nil] at hfut
            simp only [List.append_nil, List.cons.injEq] at hfut
            obtain ⟨rfl, rfl⟩ := hfut
            refine ⟨{ s with draining := true, codecQueue := tail },
              decodeGo_eof_pop hr hq, ?_, ?_, ?_, ?_⟩
            · exact ⟨rfl, rfl, rfl, rfl, rfl⟩
            · simp [futureFrames, hr, videoFrames_nil]
            · intro p hp
              rw [hr] at hp
              simp at hp
            · intro
              simp [hr]
        | [] =>
          constructor
          · intro hfut
            refine ⟨{ s with draining := true }, decodeGo_eof_end hr hq, ?_, ?_, ?_, ?_⟩
            · exact ⟨rfl, rfl, rfl, rfl, rfl⟩
            · simp [futureFrames, hq, hr, videoFrames_nil]
            · intro p hp
              rw [hr] at hp
              simp at hp
            · intro
              simp [hr]
          · intro f rest hfut
            exfalso
            rw [futureFrames, hq, hr, videoFrames_nil] at hfut
            simp at hfut
      | p :: tail =>
        have hgp := hg p (by rw [hr]; exact List.mem_cons_self p tail)
        have hro : p.readOk = true := hgp.1
        have hso : p.sendOk = true := hgp.2
        have hdr : s.draining = false := by
          cases hdrc : s.draining
          · rfl
          · exfalso
            have := hd hdrc
            rw [hr] at this
            simp at this
        have hgt : GoodRest { s with rest := tail, reads := s.reads + 1 } := by
          intro q hqm
          exact hg q (by rw [hr]; exact List.mem_cons_of_mem p hqm)
        by_cases hsi : p.streamIndex = s.videoStreamIndex
        · match hq : s.codecQueue ++ p.frames with
          | f0 :: tail₂ =>
            constructor
            · intro hfut
              exfalso
              rw [futureFrames, hr, videoFrames_cons, if_pos hsi] at hfut
              have : s.codecQueue ++ (p.frames ++ videoFrames s.videoStreamIndex tail)
                  = [] := by
                rw [← List.append_assoc]
                simpa using hfut
              rw [← List.append_assoc, hq] at this
              simp at this
            · intro f rest hfut
              rw [futureFrames, hr, videoFrames_cons, if_pos hsi,
                ← List.append_assoc, hq] at hfut
              simp only [List.cons_append, List.cons.injEq] at hfut
              obtain ⟨rfl, hrest⟩ := hfut
              refine ⟨{ s with rest := tail, reads := s.reads + 1, codecQueue := tail₂ },
                decodeGo_video_pop hr hro hsi hso hq, ?_, ?_, hgt, ?_⟩
              · exact ⟨rfl, rfl, rfl, rfl, rfl⟩
              · rw [← hrest]
                simp [futureFrames]
              · intro hc
                simp only at hc
                rw [hc] at hdr
                cases hdr
          | [] =>
            obtain ⟨hq1, hq2⟩ := List.append_eq_nil.mp hq
            have hstep := decodeGo_video_again hr hro hsi hso hq hdr
            have hmu : decMu { s with
                rest := tail
                reads := s.reads + 1
                codecQueue := s.codecQueue ++ p.frames } + 1 = decMu s := by
              simp [decMu, hq1, hq2, hr, videoFrames_cons, hsi, hdr]
              omega
            have hgt2 : GoodRest { s with
                rest := tail
                reads := s.reads + 1
                codecQueue := s.codecQueue ++ p.frames } := by
              intro q hqm
              exact hg q (by rw [hr]; exact List.mem_cons_of_mem p hqm)
            have hdt2 : DrainOk { s with
                rest := tail
                reads := s.reads + 1
                codecQueue := s.codecQueue ++ p.frames } := by
              intro hc
              simp only at hc
              rw [hc] at hdr
              cases hdr
            have hrec := ih false _ (by simp at hn ⊢; omega) hgt2 hdt2
            have hfeq : futureFrames { s with
                rest := tail
                reads := s.reads + 1
                codecQueue := s.codecQueue ++ p.frames } = futureFrames s := by
              simp [futureFrames, hr, videoFrames_cons, hsi, hq1, hq2]
            rw [hstep]
            rw [hfeq] at hrec
            constructor
            · intro hfut
              obtain ⟨s', h1, h2, h3, h4, h5⟩ := hrec.1 hfut
              exact ⟨s', h1, h2, h3, h4, h5⟩
            · intro f rest hfut
              obtain ⟨s', h1, h2, h3, h4, h5⟩ := hrec.2 f rest hfut
              exact ⟨s', h1, h2, h3, h4, h5⟩
        · match hq : s.codecQueue with
          | f0 :: tail₁ =>
            constructor
            · intro hfut
              exfalso
              rw [futureFrames, hq] at hfut
              simp at hfut
            · intro f rest hfut
              rw [futureFrames, hq, hr, videoFrames_cons, if_neg hsi] at hfut
              simp only [List.nil_append, List.cons_append, List.cons.injEq] at hfut
              obtain ⟨rfl, hrest⟩ := hfut
              refine ⟨{ s with rest := tail, reads := s.reads + 1, codecQueue := tail₁ },
                decodeGo_skip_pop hr hro hsi hq, ?_, ?_, hgt, ?_⟩
              · exact ⟨rfl, rfl, rfl, rfl, rfl⟩
              · rw [← hrest]
                simp [futureFrames]
              · intro hc
                simp only at hc
                rw [hc] at hdr
                cases hdr
          | [] =>
            have hstep := decodeGo_skip_again hr hro hsi hq hdr
            have hmu : decMu { s with rest := tail, reads := s.reads + 1 } + 1 = decMu s := by
              simp [decMu, hq, hr, videoFrames_cons, hsi, hdr]
              omega
            have hdt2 : DrainOk { s with rest := tail, reads := s.reads + 1 } := by
              intro hc
              simp only at hc
              rw [hc] at hdr
              cases hdr
            have hrec := ih false _ (by simp at hn ⊢; omega) hgt hdt2
            have hfeq : futureFrames { s with rest := tail, reads := s.reads + 1 }
                = futureFrames s := by
              simp [futureFrames, hq, hr, videoFrames_cons, hsi]
            rw [hstep]
            rw [hfeq] at hrec
            exact hrec

/-- `decodeGo_future_spec` with the measure hypothesis discharged. -/
lemma decodeGo_future_spec' (flag : Bool) (s : DecSt) (hg : GoodRest s) (hd : DrainOk s) :
    ((futureFrames s = [] → ∃ s', decodeGo flag s = (none, s', false)
        ∧ SameStream s s' ∧ futureFrames s' = [] ∧ GoodRest s' ∧ DrainOk s')
    ∧ (∀ f rest, futureFrames s = f :: rest →
        ∃ s', decodeGo flag s = (some f, s', true)
          ∧ SameStream s s' ∧ futureFrames s' = rest ∧ GoodRest s' ∧ DrainOk s')) :=
  decodeGo_future_spec (decMu s * 2 + 2) flag s (by split <;> omega) hg hd

/- One-step unfolding lemmas for `scanLoop`. -/

lemma scanLoop_step_found {flag : Bool} {s s' : DecSt} {flag' : Bool} {f : Frame} {t : Int}
    (hgo : decodeGo flag s = (some f, s', flag'))
    (hge : getBestEffortTimestampInMicroseconds f s'.timeBase ≥ t) :
    scanLoop flag s t = (true, s', flag') := by
  rw [scanLoop]
  split <;> simp_all

lemma scanLoop_step_cont {flag : Bool} {s s' : DecSt} {flag' : Bool} {f : Frame} {t : Int}
    (hgo : decodeGo flag s = (some f, s', flag'))
    (hlt : ¬ getBestEffortTimestampInMicroseconds f s'.timeBase ≥ t) :
    scanLoop flag s t = scanLoop flag' s' t := by
  rw [scanLoop]
  split <;> simp_all

lemma scanLoop_step_none {flag : Bool} {s s' : DecSt} {flag' : Bool} {t : Int}
    (hgo : decodeGo flag s = (none, s', flag')) :
    scanLoop flag s t = (false, s', flag') := by
  rw [scanLoop]
  split <;> simp_all

/-- The scan loop of `seekToTimestamp` succeeds exactly when some future
picture reaches the target, and then it stops at the first such picture,
leaving exactly the pictures after it. -/
lemma scanLoop_spec :
    ∀ (n : Nat) (flag : Bool) (s : DecSt) (t : Int),
      (futureFrames s).length ≤ n → GoodRest s → DrainOk s →
      (((scanLoop flag s t).1 = true ↔
          ∃ f ∈ futureFrames s, t ≤ getBestEffortTimestampInMicroseconds f s.timeBase)
      ∧ ((scanLoop flag s t).1 = true →
          ∃ pre f post, futureFrames s = pre ++ f :: post
            ∧ t ≤ getBestEffortTimestampInMicroseconds f s.timeBase
            ∧ futureFrames (scanLoop flag s t).2.1 = post
            ∧ GoodRest (scanLoop flag s t).2.1 ∧ DrainOk (scanLoop flag s t).2.1
            ∧ SameStream s (scanLoop flag s t).2.1)) := by
  intro n
  induction n with
  | zero =>
    intro flag s t hn hg hd
    have hfut : futureFrames s = [] := by
      have : (futureFrames s).length = 0 := by omega
      simpa using this
    obtain ⟨s', hgo, hsame, hfut', hg', hd'⟩ := (decodeGo_future_spec' flag s hg hd).1 hfut
    rw [scanLoop_step_none hgo]
    constructor
    · simp [hfut]
    · intro hc
      simp at hc
  | succ m ih =>
    intro flag s t hn hg hd
    match hfut : futureFrames s with
    | [] =>
      obtain ⟨s', hgo, hsame, hfut', hg', hd'⟩ := (decodeGo_future_spec' flag s hg hd).1 hfut
      rw [scanLoop_step_none hgo]
      constructor
      · simp [hfut]
      · intro hc
        simp at hc
    | f :: rest =>
      obtain ⟨s', hgo, hsame, hfut', hg', hd'⟩ :=
        (decodeGo_future_spec' flag s hg hd).2 f rest hfut
      have htb : s'.timeBase = s.timeBase := hsame.1
      by_cases hge : getBestEffortTimestampInMicroseconds f s'.timeBase ≥ t
      · rw [scanLoop_step_found hgo hge]
        constructor
        · simp only [true_iff]
          exact ⟨f, List.mem_cons_self f rest, by rwa [htb] at hge⟩
        · intro
          exact ⟨[], f, rest, by simp, by rwa [htb] at hge, hfut', hg', hd', hsame⟩
      · rw [scanLoop_step_cont hgo hge]
        have hlen : (futureFrames s').length ≤ m := by
          rw [hfut']
          have hlen2 : (futureFrames s).length = rest.length + 1 := by
            rw [hfut]
            simp
          omega
        obtain ⟨ihiff, ihpost⟩ := ih true s' t hlen hg' hd'
        constructor
        · rw [ihiff, hfut', htb]
          constructor
          · intro ⟨g, hgm, hgt⟩
            exact ⟨g, List.mem_cons_of_mem f hgm, hgt⟩
          · intro ⟨g, hgm, hgt⟩
            rcases List.mem_cons.mp hgm with hgf | hgm'
            · exfalso
              rw [hgf] at hgt
              rw [htb] at hge
              exact hge hgt
            · exact ⟨g, hgm', hgt⟩
        · intro htrue
          obtain ⟨pre, g, post, hsplit, hgt, hfut'', hg'', hd'', hsame'⟩ := ihpost htrue
          refine ⟨f :: pre, g, post, ?_, ?_, hfut'', hg'', hd'', ?_⟩
          · rw [hfut'] at hsplit
            rw [hsplit]
            simp
          · rwa [htb] at hgt
          · obtain ⟨a1, a2, a3, a4, a5⟩ := hsame
            obtain ⟨b1, b2, b3, b4, b5⟩ := hsame'
            exact ⟨b1.trans a1, b2.trans a2, b3.trans a3, b4.trans a4, b5.trans a5⟩

/-- C6 (amended): on a stream whose packets are sound, `seekToTimestamp`
returns false when the backward keyframe seek fails (un-seekable input) and
when no picture from the seek position onward reaches the target (in
particular when every picture of the stream lies before the target, as for a
target beyond the stream's content); and when it returns true, it has stopped
at the FIRST picture at or past the target — that picture is consumed by the
scan, so a following `getNextFrame`, when it yields a picture at all, yields
one whose normalized timestamp is at or past the target provided the stream's
normalized timestamps are non-decreasing.  (The original claim promises that
the next call always yields such a picture; the scan consuming the target
picture refutes that when it was the last one.) -/
theorem C6_seek_false_cases_and_target_reached (s : DecSt) (flag : Bool) (t : Int)
    (hga : ∀ p ∈ s.allPackets, p.readOk = true ∧ p.sendOk = true)
    (hmono : List.Pairwise
        (fun f g => getBestEffortTimestampInMicroseconds f s.timeBase
          ≤ getBestEffortTimestampInMicroseconds g s.timeBase)
        (videoFrames s.videoStreamIndex s.allPackets)) :
    (s.seekable = false → (seekToTimestamp flag s t).1 = false)
    ∧ ((∀ f ∈ videoFrames s.videoStreamIndex s.allPackets,
          getBestEffortTimestampInMicroseconds f s.timeBase < t) →
        (seekToTimestamp flag s t).1 = false)
    ∧ ((seekToTimestamp flag s t).1 = true →
        ∀ ts s'' flag'',
          getNextFrameRGB (seekToTimestamp flag s t).2.2 (seekToTimestamp flag s t).2.1
            = .ok (some ts, s'', flag'') → t ≤ ts) := by
  by_cases hsk : s.seekable = true
  case neg =>
    have hskf : s.seekable = false := by simpa using hsk
    have hres : seekToTimestamp flag s t
        = (false, { s with codecQueue := [], draining := false }, flag) := by
      unfold seekToTimestamp
      have hsb : avSeekFrameBackward { s with codecQueue := [], draining := false }
          (avRescaleQ t AV_TIME_BASE_Q s.timeBase) = none := by
        simp [avSeekFrameBackward, hskf]
      simp only [hsb]
    rw [hres]
    refine ⟨fun _ => rfl, fun _ => rfl, ?_⟩
    intro hc
    simp at hc
  case pos =>
    have hsb : avSeekFrameBackward { s with codecQueue := [], draining := false }
        (avRescaleQ t AV_TIME_BASE_Q s.timeBase)
        = some (s.allPackets.drop
            (seekIndex s.allPackets (avRescaleQ t AV_TIME_BASE_Q s.timeBase))) := by
      simp [avSeekFrameBackward, hsk]
    have hres : seekToTimestamp flag s t
        = scanLoop flag { s with
            codecQueue := []
            draining := false
            rest := s.allPackets.drop
              (seekIndex s.allPackets (avRescaleQ t AV_TIME_BASE_Q s.timeBase)) } t := by
      unfold seekToTimestamp
      simp only [hsb]
    set S : DecSt := { s with
      codecQueue := []
      draining := false
      rest := s.allPackets.drop
        (seekIndex s.allPackets (avRescaleQ t AV_TIME_BASE_Q s.timeBase)) } with hSdef
    have hGS : GoodRest S := by
      intro p hp
      exact hga p (List.mem_of_mem_drop hp)
    have hDS : DrainOk S := by
      intro hc
      simp [hSdef] at hc
    have hfutS : futureFrames S
        = videoFrames s.videoStreamIndex (s.allPackets.drop
            (seekIndex s.allPackets (avRescaleQ t AV_TIME_BASE_Q s.timeBase))) := by
      simp [futureFrames, hSdef]
    have hsplitC : videoFrames s.videoStreamIndex s.allPackets
        = videoFrames s.videoStreamIndex (s.allPackets.take
              (seekIndex s.allPackets (avRescaleQ t AV_TIME_BASE_Q s.timeBase)))
          ++ futureFrames S := by
      rw [hfutS, ← videoFrames_append, List.take_append_drop]
    obtain ⟨hiff, hpost⟩ :=
      scanLoop_spec (futureFrames S).length flag S t le_rfl hGS hDS
    have hmemC : ∀ f ∈ futureFrames S, f ∈ videoFrames s.videoStreamIndex s.allPackets := by
      intro f hf
      rw [hsplitC]
      exact List.mem_append_right _ hf
    refine ⟨?_, ?_, ?_⟩
    · intro hc
      rw [hsk] at hc
      cases hc
    · intro hall
      rw [hres]
      cases hb : (scanLoop flag S t).1 with
      | false => rfl
      | true =>
        exfalso
        obtain ⟨f, hfm, hft⟩ := hiff.mp hb
        exact absurd hft (by simpa using hall f (hmemC f hfm))
    · intro htrue ts s'' flag'' hnext
      rw [hres] at htrue hnext
      obtain ⟨pre, f, post, hsplit, hft, hfut'', hg'', hd'', hsame''⟩ := hpost htrue
      have htbS : (scanLoop flag S t).2.1.timeBase = s.timeBase := hsame''.1
      have hmonoS : List.Pairwise
          (fun f g => getBestEffortTimestampInMicroseconds f s.timeBase
            ≤ getBestEffortTimestampInMicroseconds g s.timeBase) (futureFrames S) := by
        rw [hsplitC] at hmono
        exact (List.pairwise_append.mp hmono).2.1
      have hmpost : ∀ g ∈ post,
          getBestEffortTimestampInMicroseconds f s.timeBase
            ≤ getBestEffortTimestampInMicroseconds g s.timeBase := by
        rw [hsplit] at hmonoS
        have h2 := (List.pairwise_append.mp hmonoS).2.1
        exact (List.pairwise_cons.mp h2).1
      cases post with
      | nil =>
        exfalso
        obtain ⟨s2, hgo, -, -, -, -⟩ :=
          (decodeGo_future_spec' (scanLoop flag S t).2.2 (scanLoop flag S t).2.1
            hg'' hd'').1 hfut''
        unfold getNextFrameRGB at hnext
        rw [hgo] at hnext
        simp at hnext
      | cons g rest2 =>
        obtain ⟨s2, hgo, hsame2, -, -, -⟩ :=
          (decodeGo_future_spec' (scanLoop flag S t).2.2 (scanLoop flag S t).2.1
            hg'' hd'').2 g rest2 hfut''
        have htb2 : s2.timeBase = s.timeBase := by
          rw [hsame2.1, htbS]
        by_cases hc : g.convOk = true
        · have hval : getNextFrameRGB (scanLoop flag S t).2.2 (scanLoop flag S t).2.1
              = .ok (some (getBestEffortTimestampInMicroseconds g s2.timeBase), s2, true) := by
            unfold getNextFrameRGB
            rw [hgo]
            simp [hc]
          rw [hval] at hnext
          simp only [Except.ok.injEq, Prod.mk.injEq, Option.some.injEq] at hnext
          rw [← hnext.1, htb2]
          exact le_trans hft (hmpost g (List.mem_cons_self g rest2))
        · have hval : getNextFrameRGB (scanLoop flag S t).2.2 (scanLoop flag S t).2.1
              = .error "failed to create scaling context" := by
            unfold getNextFrameRGB
            rw [hgo]
            simp [hc]
          rw [hval] at hnext
          cases hnext

/-- A seekable one-packet stream: its single picture sits at tick 0 and the
stream lasts 25 ticks (one second at time base 1/25). -/
def decStC6 : DecSt :=
  { allPackets := [⟨0, true, true, true, 0, [⟨0, true⟩]⟩]
    rest := [⟨0, true, true, true, 0, [⟨0, true⟩]⟩]
    videoStreamIndex := 0
    timeBase := ⟨1, 25⟩
    duration := 25
    seekable := true
    codecQueue := []
    draining := false
    reads := 0 }

/-- The state of `decStC6` after its single picture has been decoded and
delivered: the one packet read, the codec queue empty again. -/
def decStC6A : DecSt :=
  { allPackets := [⟨0, true, true, true, 0, [⟨0, true⟩]⟩]
    rest := []
    videoStreamIndex := 0
    timeBase := ⟨1, 25⟩
    duration := 25
    seekable := true
    codecQueue := []
    draining := false
    reads := 1 }

set_option maxRecDepth 8000 in
/-- C6 counterexample: target 0 lies in [0, duration) and `seekToTimestamp`
returns true, yet the NEXT `getNextFrame` call yields no frame at all — the
scan inside the seek already consumed the (only) picture at or past the
target, so the promised "next getNextFrame call yields a frame whose
normalized timestamp is ≥ t" fails. -/
theorem C6_counterexample_seek_consumes_target_frame :
    ((0:Int) ≤ 0 ∧ (0:Int) < getTotalDuration decStC6)
    ∧ (seekToTimestamp false decStC6 0).1 = true
    ∧ (getNextFrameRGB (seekToTimestamp false decStC6 0).2.2
        (seekToTimestamp false decStC6 0).2.1).toOption.map Prod.fst
      = some none := by
  have hgo1 : decodeGo false decStC6 = (some ⟨0, true⟩, decStC6A, true) := by
    simp [decodeGo, decStC6, decStC6A]
  have hscan : scanLoop false decStC6 0 = (true, decStC6A, true) :=
    scanLoop_step_found hgo1 (by decide)
  have hseek0 : seekToTimestamp false decStC6 0 = scanLoop false decStC6 0 := rfl
  have hseek : seekToTimestamp false decStC6 0 = (true, decStC6A, true) := by
    rw [hseek0, hscan]
  have hnext : getNextFrameRGB true decStC6A
      = .ok (none, { decStC6A with draining := true }, false) := by
    simp [getNextFrameRGB, decodeGo, decStC6A]
  refine ⟨⟨le_refl 0, by decide⟩, ?_, ?_⟩
  · rw [hseek]
  · rw [hseek]
    simp only []
    rw [hnext]
    rfl

/-- Witness for C6 at the concrete stream `decStC6`, flag false, target 0:
the packets are sound and the (single-element) picture list is timestamp
ordered, so the amended seek theorem applies. -/
theorem C6_seek_false_cases_and_target_reached_witness :
    (decStC6.seekable = false → (seekToTimestamp false decStC6 0).1 = false)
    ∧ ((∀ f ∈ videoFrames decStC6.videoStreamIndex decStC6.allPackets,
          getBestEffortTimestampInMicroseconds f decStC6.timeBase < 0) →
        (seekToTimestamp false decStC6 0).1 = false)
    ∧ ((seekToTimestamp false decStC6 0).1 = true →
        ∀ ts s'' flag'',
          getNextFrameRGB (seekToTimestamp false decStC6 0).2.2
              (seekToTimestamp false decStC6 0).2.1
            = .ok (some ts, s'', flag'') → (0:Int) ≤ ts) :=
  C6_seek_false_cases_and_target_reached decStC6 false 0 (by decide) (by decide)
